import Mathlib

/-!
Verification of the character-decoding layer of an XML pull parser.

The development shallowly embeds the decoder found in `src/util.rs` and the
reader adapters found in `src/reader/sync_reader.rs` and
`src/reader/async_reader.rs`.  Bytes are modelled as natural numbers
(values `0 ≤ b < 256` in every reachable state), byte sources as lists of
bytes, Unicode codepoints as natural numbers, and the fallible decoding
step as a total Lean function returning an `Except` value together with
the final mutable state (encoding, internal 4-byte buffer, buffer
position, unread remainder of the source).
-/

set_option maxRecDepth 10000

/-- Character encoding used for parsing (mirrors `enum Encoding`). -/
inductive Encoding where
  | Utf8
  | Default
  | Latin1
  | Ascii
  | Utf16Be
  | Utf16Le
  | Utf16
  | Unknown
deriving DecidableEq, Repr

/-- The `std::io::ErrorKind` values that the decoder layer can produce. -/
inductive IoErrorKind where
  | InvalidData
  | Unsupported
deriving DecidableEq, Repr

/-- Error type of the decoder (mirrors `enum CharReadError`).  An I/O error
carries its kind; the source being modelled as a pure byte list, the only
I/O errors that arise are the ones the decoder itself constructs. -/
inductive CharReadError where
  | UnexpectedEof
  | Utf8
  | IoErr (k : IoErrorKind)
deriving DecidableEq, Repr

/-- Lower-case an ASCII byte (mirrors `u8::to_ascii_lowercase`). -/
def toAsciiLower (b : Nat) : Nat :=
  if 65 ≤ b ∧ b ≤ 90 then b + 32 else b

/-- Case-insensitive comparison used by `Encoding::from_str` (mirrors `icmp`):
zips the two byte strings and compares pointwise, stopping at the shorter. -/
def icmp (lower varcase : List Nat) : Bool :=
  (lower.zip varcase).all fun p => p.1 == toAsciiLower p.2

/-- Byte string of an ASCII label. -/
def asciiBytes (s : String) : List Nat := s.toList.map Char.toNat

/-- The recognized encoding label, mirroring `impl FromStr for Encoding`.
The argument is the declared name as a byte string. -/
def Encoding.from_str (val : List Nat) : Except String Encoding :=
  if [asciiBytes "utf-8", asciiBytes "utf8"].any fun label => icmp label val then
    .ok .Utf8
  else if [asciiBytes "iso-8859-1", asciiBytes "latin1"].any fun label => icmp label val then
    .ok .Latin1
  else if [asciiBytes "utf-16", asciiBytes "utf16"].any fun label => icmp label val then
    .ok .Utf16
  else if [asciiBytes "ascii", asciiBytes "us-ascii"].any fun label => icmp label val then
    .ok .Ascii
  else
    .error "unknown encoding name"

/-- `isInitSeg a b` holds when `a` is an initial segment of `b`
(mirrors `b.starts_with(a)` on slices). -/
def isInitSeg : List Nat → List Nat → Bool
  | [], _ => true
  | _ :: _, [] => false
  | a :: as, b :: bs => a == b && isInitSeg as bs

/-- One step of the BOM sniffing performed while the encoding is still
`Unknown` or undetermined-endianness `Utf16` (mirrors `sniff_bom`).  The
input is the buffered byte slice `buf[..pos]` plus the current encoding and
position; the output is the new encoding, the new position, and an optional
early result. -/
def sniff_bom (encoding : Encoding) (buf : List Nat) (pos : Nat) :
    Encoding × Nat × Option (Except CharReadError (Option Nat)) :=
  if buf.length ≤ 3 ∧ isInitSeg buf [0xEF, 0xBB, 0xBF] then
    if buf.length = 3 ∧ encoding ≠ .Utf16 then (.Utf8, 0, none)
    else (encoding, pos, none)
  else if buf.length ≤ 2 ∧ isInitSeg buf [0xFE, 0xFF] then
    if buf.length = 2 then (.Utf16Be, 0, none)
    else (encoding, pos, none)
  else if buf.length ≤ 2 ∧ isInitSeg buf [0xFF, 0xFE] then
    if buf.length = 2 then (.Utf16Le, 0, none)
    else (encoding, pos, none)
  else if buf.length = 1 ∧ encoding = .Utf16 then
    (if buf.headD 0 = 0 then .Utf16Be else .Utf16Le, pos, none)
  else
    if buf.length = 1 ∧ buf.headD 0 < 0x80 then
      (.Default, pos, some (.ok (some (buf.headD 0))))
    else
      (.Default, pos, none)

/-- Whether a byte is a UTF-8 continuation byte (`0x80..=0xBF`). -/
def isCont (b : Nat) : Bool := 0x80 ≤ b && b ≤ 0xBF

/-- Admissible second byte of a three-byte UTF-8 sequence with lead `b0`
(the restricted ranges exclude overlong forms and surrogates, exactly as
`str::from_utf8` does). -/
def cont2ok (b0 b1 : Nat) : Bool :=
  if b0 = 0xE0 then 0xA0 ≤ b1 && b1 ≤ 0xBF
  else if b0 = 0xED then 0x80 ≤ b1 && b1 ≤ 0x9F
  else isCont b1

/-- Admissible second byte of a four-byte UTF-8 sequence with lead `b0`. -/
def cont3ok (b0 b1 : Nat) : Bool :=
  if b0 = 0xF0 then 0x90 ≤ b1 && b1 ≤ 0xBF
  else if b0 = 0xF4 then 0x80 ≤ b1 && b1 ≤ 0x8F
  else isCont b1

/-- Continuation of a two-byte UTF-8 sequence with lead byte `b0`. -/
def utf8Tail2 (b0 : Nat) : List Nat → Option (Nat × List Nat)
  | b1 :: r1 =>
    if isCont b1 then some ((b0 - 0xC0) * 0x40 + (b1 - 0x80), r1) else none
  | [] => none

/-- Continuation of a three-byte UTF-8 sequence with lead byte `b0`. -/
def utf8Tail3 (b0 : Nat) : List Nat → Option (Nat × List Nat)
  | b1 :: b2 :: r2 =>
    if cont2ok b0 b1 && isCont b2 then
      some ((b0 - 0xE0) * 0x1000 + (b1 - 0x80) * 0x40 + (b2 - 0x80), r2)
    else none
  | _ => none

/-- Continuation of a four-byte UTF-8 sequence with lead byte `b0`. -/
def utf8Tail4 (b0 : Nat) : List Nat → Option (Nat × List Nat)
  | b1 :: b2 :: b3 :: r3 =>
    if cont3ok b0 b1 && isCont b2 && isCont b3 then
      some ((b0 - 0xF0) * 0x40000 + (b1 - 0x80) * 0x1000 + (b2 - 0x80) * 0x40 + (b3 - 0x80), r3)
    else none
  | _ => none

/-- Decode the first UTF-8 scalar of a byte list, returning it together with
the remaining bytes, or `none` on an invalid or incomplete head sequence.
The accepted sequences are exactly the ones `str::from_utf8` accepts. -/
def utf8DecodeOne : List Nat → Option (Nat × List Nat)
  | [] => none
  | b0 :: r0 =>
    if b0 < 0x80 then some (b0, r0)
    else if b0 < 0xC2 then none
    else if b0 ≤ 0xDF then utf8Tail2 b0 r0
    else if b0 ≤ 0xEF then utf8Tail3 b0 r0
    else if b0 ≤ 0xF4 then utf8Tail4 b0 r0
    else none

/-- Helper of `utf8Valid`: the fuel bounds the number of decoded scalars
and is always at least the length of the list when called from
`utf8Valid`. -/
def utf8ValidAux : Nat → List Nat → Bool
  | _, [] => true
  | 0, _ :: _ => false
  | fuel + 1, b0 :: r0 =>
    match utf8DecodeOne (b0 :: r0) with
    | some (_, r) => utf8ValidAux fuel r
    | none => false

/-- Whether a byte list is entirely valid UTF-8 (mirrors the success of
`str::from_utf8`): the list splits completely into admissible scalar
sequences. -/
def utf8Valid (l : List Nat) : Bool := utf8ValidAux l.length l

/-- First scalar of a byte list (mirrors `s.chars().next()` on the string
obtained from `str::from_utf8`). -/
def utf8First (l : List Nat) : Option Nat := (utf8DecodeOne l).map Prod.fst

/-- Whether a 16-bit code unit is a surrogate. -/
def isSurrogateUnit (u : Nat) : Bool := 0xD800 ≤ u && u ≤ 0xDFFF

/-- `u16::from_be_bytes [b0, b1]`. -/
def be16 (b0 b1 : Nat) : Nat := b0 * 0x100 + b1

/-- `u16::from_le_bytes [b0, b1]`. -/
def le16 (b0 b1 : Nat) : Nat := b1 * 0x100 + b0

/-- Decode a buffered pair of UTF-16 code units (mirrors `surrogate`):
`char::decode_utf16([u1, u2]).next().transpose()`, with the unpaired or
invalid case reported as an `InvalidData` I/O error. -/
def surrogate (u1 u2 : Nat) : Except CharReadError (Option Nat) :=
  if isSurrogateUnit u1 then
    if u1 ≤ 0xDBFF ∧ 0xDC00 ≤ u2 ∧ u2 ≤ 0xDFFF then
      .ok (some (0x10000 + (u1 - 0xD800) * 0x400 + (u2 - 0xDC00)))
    else
      .error (.IoErr .InvalidData)
  else
    .ok (some u1)

deriving instance DecidableEq for Except

/-- Result of one call of the decoder: the returned value and the final
state of the four mutable locations (`encoding`, `buf`, `pos`, and the
not-yet-consumed remainder of the byte source). -/
structure DecodeResult where
  res : Except CharReadError (Option Nat)
  enc : Encoding
  buf : List Nat
  pos : Nat
  rest : List Nat
deriving DecidableEq, Repr

/-- The blocking decoder (mirrors `read_char_from`).  The byte source is the
list `src`; reaching its end corresponds to `bytes.next()` returning
`None`. -/
def read_char_from (src : List Nat) (encoding : Encoding) (buf : List Nat) (pos : Nat) :
    DecodeResult :=
  if 4 ≤ pos then ⟨.error (.IoErr .InvalidData), encoding, buf, pos, src⟩
  else
    match src with
    | [] =>
      if pos = 0 then ⟨.ok none, encoding, buf, pos, []⟩
      else ⟨.error .UnexpectedEof, encoding, buf, pos, []⟩
    | next :: rest =>
      match encoding with
      | .Utf8 | .Default =>
        if pos = 0 ∧ next < 0x80 then ⟨.ok (some next), encoding, buf, pos, rest⟩
        else if utf8Valid ((buf.set pos next).take (pos + 1)) then
          ⟨.ok (utf8First ((buf.set pos next).take (pos + 1))), encoding, buf.set pos next,
            pos + 1, rest⟩
        else if pos + 1 < 4 then read_char_from rest encoding (buf.set pos next) (pos + 1)
        else ⟨.error .Utf8, encoding, buf.set pos next, pos + 1, rest⟩
      | .Latin1 => ⟨.ok (some next), encoding, buf, pos, rest⟩
      | .Ascii =>
        if next < 0x80 then ⟨.ok (some next), encoding, buf, pos, rest⟩
        else ⟨.error (.IoErr .InvalidData), encoding, buf, pos, rest⟩
      | .Unknown | .Utf16 =>
        match sniff_bom encoding ((buf.set pos next).take (pos + 1)) (pos + 1) with
        | (enc2, pos2, some v) => ⟨v, enc2, buf.set pos next, pos2, rest⟩
        | (enc2, pos2, none) => read_char_from rest enc2 (buf.set pos next) pos2
      | .Utf16Be =>
        if pos + 1 = 2 then
          if isSurrogateUnit (be16 ((buf.set pos next).headD 0) ((buf.set pos next).getD 1 0)) then
            read_char_from rest .Utf16Be (buf.set pos next) (pos + 1)
          else
            ⟨.ok (some (be16 ((buf.set pos next).headD 0) ((buf.set pos next).getD 1 0))),
              .Utf16Be, buf.set pos next, pos + 1, rest⟩
        else if pos + 1 = 4 then
          ⟨surrogate (be16 ((buf.set pos next).headD 0) ((buf.set pos next).getD 1 0))
              (be16 ((buf.set pos next).getD 2 0) ((buf.set pos next).getD 3 0)),
            .Utf16Be, buf.set pos next, pos + 1, rest⟩
        else read_char_from rest .Utf16Be (buf.set pos next) (pos + 1)
      | .Utf16Le =>
        if pos + 1 = 2 then
          if isSurrogateUnit (le16 ((buf.set pos next).headD 0) ((buf.set pos next).getD 1 0)) then
            read_char_from rest .Utf16Le (buf.set pos next) (pos + 1)
          else
            ⟨.ok (some (le16 ((buf.set pos next).headD 0) ((buf.set pos next).getD 1 0))),
              .Utf16Le, buf.set pos next, pos + 1, rest⟩
        else if pos + 1 = 4 then
          ⟨surrogate (le16 ((buf.set pos next).headD 0) ((buf.set pos next).getD 1 0))
              (le16 ((buf.set pos next).getD 2 0) ((buf.set pos next).getD 3 0)),
            .Utf16Le, buf.set pos next, pos + 1, rest⟩
        else read_char_from rest .Utf16Le (buf.set pos next) (pos + 1)

/-- The suspending decoder (mirrors `async_read_char_from`).  On a pure byte
source the awaited `read_u8` either yields the next byte or fails with an
`UnexpectedEof`-kind error once the source is exhausted, which the function
maps to a clean `None` when `pos = 0` and to `UnexpectedEof` otherwise. -/
def async_read_char_from (src : List Nat) (encoding : Encoding) (buf : List Nat) (pos : Nat) :
    DecodeResult :=
  if 4 ≤ pos then ⟨.error (.IoErr .InvalidData), encoding, buf, pos, src⟩
  else
    match src with
    | [] =>
      if pos = 0 then ⟨.ok none, encoding, buf, pos, []⟩
      else ⟨.error .UnexpectedEof, encoding, buf, pos, []⟩
    | next :: rest =>
      match encoding with
      | .Utf8 | .Default =>
        if pos = 0 ∧ next < 0x80 then ⟨.ok (some next), encoding, buf, pos, rest⟩
        else if utf8Valid ((buf.set pos next).take (pos + 1)) then
          ⟨.ok (utf8First ((buf.set pos next).take (pos + 1))), encoding, buf.set pos next,
            pos + 1, rest⟩
        else if pos + 1 < 4 then async_read_char_from rest encoding (buf.set pos next) (pos + 1)
        else ⟨.error .Utf8, encoding, buf.set pos next, pos + 1, rest⟩
      | .Latin1 => ⟨.ok (some next), encoding, buf, pos, rest⟩
      | .Ascii =>
        if next < 0x80 then ⟨.ok (some next), encoding, buf, pos, rest⟩
        else ⟨.error (.IoErr .InvalidData), encoding, buf, pos, rest⟩
      | .Unknown | .Utf16 =>
        match sniff_bom encoding ((buf.set pos next).take (pos + 1)) (pos + 1) with
        | (enc2, pos2, some v) => ⟨v, enc2, buf.set pos next, pos2, rest⟩
        | (enc2, pos2, none) => async_read_char_from rest enc2 (buf.set pos next) pos2
      | .Utf16Be =>
        if pos + 1 = 2 then
          if isSurrogateUnit (be16 ((buf.set pos next).headD 0) ((buf.set pos next).getD 1 0)) then
            async_read_char_from rest .Utf16Be (buf.set pos next) (pos + 1)
          else
            ⟨.ok (some (be16 ((buf.set pos next).headD 0) ((buf.set pos next).getD 1 0))),
              .Utf16Be, buf.set pos next, pos + 1, rest⟩
        else if pos + 1 = 4 then
          ⟨surrogate (be16 ((buf.set pos next).headD 0) ((buf.set pos next).getD 1 0))
              (be16 ((buf.set pos next).getD 2 0) ((buf.set pos next).getD 3 0)),
            .Utf16Be, buf.set pos next, pos + 1, rest⟩
        else async_read_char_from rest .Utf16Be (buf.set pos next) (pos + 1)
      | .Utf16Le =>
        if pos + 1 = 2 then
          if isSurrogateUnit (le16 ((buf.set pos next).headD 0) ((buf.set pos next).getD 1 0)) then
            async_read_char_from rest .Utf16Le (buf.set pos next) (pos + 1)
          else
            ⟨.ok (some (le16 ((buf.set pos next).headD 0) ((buf.set pos next).getD 1 0))),
              .Utf16Le, buf.set pos next, pos + 1, rest⟩
        else if pos + 1 = 4 then
          ⟨surrogate (le16 ((buf.set pos next).headD 0) ((buf.set pos next).getD 1 0))
              (le16 ((buf.set pos next).getD 2 0) ((buf.set pos next).getD 3 0)),
            .Utf16Le, buf.set pos next, pos + 1, rest⟩
        else async_read_char_from rest .Utf16Le (buf.set pos next) (pos + 1)

/-- Whether a natural number is a Unicode scalar value. -/
def isScalar (c : Nat) : Bool := c < 0xD800 || (0xE000 ≤ c && c ≤ 0x10FFFF)

/-- Standard UTF-8 encoding of a scalar value. -/
def utf8Encode (c : Nat) : List Nat :=
  if c < 0x80 then [c]
  else if c < 0x800 then [0xC0 + c / 0x40, 0x80 + c % 0x40]
  else if c < 0x10000 then
    [0xE0 + c / 0x1000, 0x80 + (c / 0x40) % 0x40, 0x80 + c % 0x40]
  else
    [0xF0 + c / 0x40000, 0x80 + (c / 0x1000) % 0x40, 0x80 + (c / 0x40) % 0x40, 0x80 + c % 0x40]

/-- Big-endian UTF-16 encoding of a scalar value (surrogate pair above the
Basic Multilingual Plane). -/
def utf16BeEncode (c : Nat) : List Nat :=
  if c < 0x10000 then [c / 0x100, c % 0x100]
  else
    let hi := 0xD800 + (c - 0x10000) / 0x400
    let lo := 0xDC00 + (c - 0x10000) % 0x400
    [hi / 0x100, hi % 0x100, lo / 0x100, lo % 0x100]

/-- Little-endian UTF-16 encoding of a scalar value. -/
def utf16LeEncode (c : Nat) : List Nat :=
  if c < 0x10000 then [c % 0x100, c / 0x100]
  else
    let hi := 0xD800 + (c - 0x10000) / 0x400
    let lo := 0xDC00 + (c - 0x10000) % 0x400
    [hi % 0x100, hi / 0x100, lo % 0x100, lo / 0x100]

/-- The supported external encodings of the round-trip property: UTF-8,
UTF-16 of either endianness with or without BOM, ISO-8859-1, US-ASCII. -/
inductive ExtEncoding where
  | utf8
  | utf16be (bom : Bool)
  | utf16le (bom : Bool)
  | latin1
  | ascii
deriving DecidableEq, Repr

/-- Bytes of one codepoint under an external encoding. -/
def ExtEncoding.encodeChar : ExtEncoding → Nat → List Nat
  | .utf8, c => utf8Encode c
  | .utf16be _, c => utf16BeEncode c
  | .utf16le _, c => utf16LeEncode c
  | .latin1, c => [c]
  | .ascii, c => [c]

/-- Leading byte-order mark of an external encoding, when one is used. -/
def ExtEncoding.bomBytes : ExtEncoding → List Nat
  | .utf16be true => [0xFE, 0xFF]
  | .utf16le true => [0xFF, 0xFE]
  | _ => []

/-- Bytes of a codepoint sequence under an external encoding. -/
def ExtEncoding.encodeSeq (e : ExtEncoding) (s : List Nat) : List Nat :=
  e.bomBytes ++ s.flatMap e.encodeChar

/-- Decoder state under which a stream in the given external encoding is
read: the concrete variant when no BOM is present, `Unknown` (sniffed) when
a BOM is present. -/
def ExtEncoding.startEnc : ExtEncoding → Encoding
  | .utf8 => .Utf8
  | .utf16be false => .Utf16Be
  | .utf16be true => .Unknown
  | .utf16le false => .Utf16Le
  | .utf16le true => .Unknown
  | .latin1 => .Latin1
  | .ascii => .Ascii

/-- Whether a codepoint is representable under an external encoding. -/
def ExtEncoding.validCp : ExtEncoding → Nat → Bool
  | .utf8, c => isScalar c
  | .utf16be _, c => isScalar c
  | .utf16le _, c => isScalar c
  | .latin1, c => c < 0x100
  | .ascii, c => c < 0x80

/-- Repeatedly pull codepoints through the blocking decoder, resetting
`pos` to `0` before each call exactly as `SyncReader::read_char` and
`AsyncReader::read_char` do, and threading the encoding and the internal
buffer through; stops at a clean end of stream or at the first error.  The
fuel argument bounds the number of calls; it is unreachable junk whenever
`fuel` exceeds the length of the source. -/
def decodeAllAux : Nat → List Nat → Encoding → List Nat → Except CharReadError (List Nat)
  | 0, _, _, _ => .error .UnexpectedEof
  | fuel + 1, src, encoding, buf =>
    let r := read_char_from src encoding buf 0
    match r.res with
    | .ok none => .ok []
    | .ok (some c) => (decodeAllAux fuel r.rest r.enc r.buf).map (c :: ·)
    | .error e => .error e

/-- Decode a whole byte stream into the list of its codepoints. -/
def decodeAll (src : List Nat) (encoding : Encoding) : Except CharReadError (List Nat) :=
  decodeAllAux (src.length + 1) src encoding [0, 0, 0, 0]

/-- State of the asynchronous reader adapter (mirrors `struct AsyncReader`). -/
structure AsyncReader where
  inner : List Nat
  encoding : Encoding
  buf : List Nat
  pos : Nat
deriving DecidableEq, Repr

/-- The synchronous `XmlRead::read_char` implementation on `AsyncReader`:
it unconditionally reports an `Unsupported`-kind I/O error and leaves the
whole reader state untouched. -/
def AsyncReader.read_char_sync (r : AsyncReader) :
    Except CharReadError (Option Nat) × AsyncReader :=
  (.error (.IoErr .Unsupported), r)

/-- The asynchronous `AsyncXmlRead::read_char` implementation on
`AsyncReader`: reset `pos` for a new character, then run the suspending
decoder. -/
def AsyncReader.read_char_async (r : AsyncReader) :
    Except CharReadError (Option Nat) × AsyncReader :=
  let d := async_read_char_from r.inner r.encoding r.buf 0
  (d.res, ⟨d.rest, d.enc, d.buf, d.pos⟩)

/-! ### Unfolding equations and helper lemmas -/

theorem read_nil (encoding : Encoding) (buf : List Nat) :
    read_char_from [] encoding buf 0 = ⟨.ok none, encoding, buf, 0, []⟩ := by
  simp [read_char_from]

theorem read_nil_mid (encoding : Encoding) (buf : List Nat) (pos : Nat)
    (h0 : 0 < pos) (h4 : pos < 4) :
    read_char_from [] encoding buf pos = ⟨.error .UnexpectedEof, encoding, buf, pos, []⟩ := by
  rw [read_char_from]
  rw [if_neg (by omega), if_neg (by omega)]

theorem read_full (src : List Nat) (encoding : Encoding) (buf : List Nat) (pos : Nat)
    (h4 : 4 ≤ pos) :
    read_char_from src encoding buf pos = ⟨.error (.IoErr .InvalidData), encoding, buf, pos, src⟩ := by
  cases src with
  | nil => rw [read_char_from, if_pos h4]
  | cons a l => cases encoding <;> rw [read_char_from] <;> rw [if_pos h4]

theorem read_utf8_cons (encoding : Encoding) (henc : encoding = .Utf8 ∨ encoding = .Default)
    (next : Nat) (rest buf : List Nat) (pos : Nat) (h4 : pos < 4) :
    read_char_from (next :: rest) encoding buf pos =
      if pos = 0 ∧ next < 0x80 then ⟨.ok (some next), encoding, buf, pos, rest⟩
      else if utf8Valid ((buf.set pos next).take (pos + 1)) then
        ⟨.ok (utf8First ((buf.set pos next).take (pos + 1))), encoding, buf.set pos next,
          pos + 1, rest⟩
      else if pos + 1 < 4 then read_char_from rest encoding (buf.set pos next) (pos + 1)
      else ⟨.error .Utf8, encoding, buf.set pos next, pos + 1, rest⟩ := by
  rcases henc with h | h <;> subst h <;>
    (conv_lhs => rw [read_char_from]) <;> rw [if_neg (by omega)]

theorem read_latin1_cons (next : Nat) (rest buf : List Nat) (pos : Nat) (h4 : pos < 4) :
    read_char_from (next :: rest) .Latin1 buf pos = ⟨.ok (some next), .Latin1, buf, pos, rest⟩ := by
  rw [read_char_from, if_neg (by omega)]

theorem read_ascii_cons (next : Nat) (rest buf : List Nat) (pos : Nat) (h4 : pos < 4) :
    read_char_from (next :: rest) .Ascii buf pos =
      if next < 0x80 then ⟨.ok (some next), .Ascii, buf, pos, rest⟩
      else ⟨.error (.IoErr .InvalidData), .Ascii, buf, pos, rest⟩ := by
  rw [read_char_from, if_neg (by omega)]

theorem utf8Valid_cons (b0 : Nat) (r0 : List Nat) :
    utf8Valid (b0 :: r0) =
      match utf8DecodeOne (b0 :: r0) with
      | some (_, r) => utf8ValidAux r0.length r
      | none => false := by
  simp only [utf8Valid, List.length_cons, utf8ValidAux]
  try rfl

theorem utf8Valid_single (b0 : Nat) (h : 0x80 ≤ b0) : utf8Valid [b0] = false := by
  rw [utf8Valid_cons]
  simp only [utf8DecodeOne, utf8Tail2, utf8Tail3, utf8Tail4]
  split_ifs <;> first | rfl | omega

theorem utf8Valid_badlead (b0 : Nat) (l : List Nat)
    (h : (0x80 ≤ b0 ∧ b0 < 0xC2) ∨ 0xF4 < b0) : utf8Valid (b0 :: l) = false := by
  rw [utf8Valid_cons]
  simp only [utf8DecodeOne]
  split_ifs <;> first | rfl | omega

theorem utf8Valid_two_short (b0 b1 : Nat) (h : 0xE0 ≤ b0) : utf8Valid [b0, b1] = false := by
  rw [utf8Valid_cons]
  simp only [utf8DecodeOne, utf8Tail2, utf8Tail3, utf8Tail4, isCont]
  split_ifs <;> first | rfl | omega

theorem utf8Valid_three_short (b0 b1 b2 : Nat) (h : 0xF0 ≤ b0) :
    utf8Valid [b0, b1, b2] = false := by
  rw [utf8Valid_cons]
  simp only [utf8DecodeOne, utf8Tail2, utf8Tail3, utf8Tail4, isCont, cont2ok]
  split_ifs <;> first | rfl | omega

theorem utf8_two (b0 b1 : Nat) (h0 : 0xC2 ≤ b0) (h0' : b0 ≤ 0xDF)
    (h1 : 0x80 ≤ b1) (h1' : b1 ≤ 0xBF) :
    utf8Valid [b0, b1] = true ∧ utf8First [b0, b1] = some ((b0 - 0xC0) * 0x40 + (b1 - 0x80)) := by
  have hd : utf8DecodeOne [b0, b1] = some ((b0 - 0xC0) * 0x40 + (b1 - 0x80), []) := by
    simp only [utf8DecodeOne, utf8Tail2, isCont]
    rw [if_neg (by omega), if_neg (by omega), if_pos (by omega),
      if_pos (by simp; omega)]
  refine ⟨?_, by simp [utf8First, hd]⟩
  rw [utf8Valid_cons, hd]
  try rfl

theorem utf8_three (b0 b1 b2 : Nat) (h0 : 0xE0 ≤ b0) (h0' : b0 ≤ 0xEF)
    (hc2 : cont2ok b0 b1 = true) (h2 : 0x80 ≤ b2) (h2' : b2 ≤ 0xBF) :
    utf8Valid [b0, b1, b2] = true ∧
      utf8First [b0, b1, b2] = some ((b0 - 0xE0) * 0x1000 + (b1 - 0x80) * 0x40 + (b2 - 0x80)) := by
  have hd : utf8DecodeOne [b0, b1, b2] =
      some ((b0 - 0xE0) * 0x1000 + (b1 - 0x80) * 0x40 + (b2 - 0x80), []) := by
    simp only [utf8DecodeOne, utf8Tail3, isCont]
    rw [if_neg (by omega), if_neg (by omega), if_neg (by omega), if_pos (by omega),
      if_pos (by simp [hc2]; omega)]
  refine ⟨?_, by simp [utf8First, hd]⟩
  rw [utf8Valid_cons, hd]
  try rfl

theorem utf8_four (b0 b1 b2 b3 : Nat) (h0 : 0xF0 ≤ b0) (h0' : b0 ≤ 0xF4)
    (hc3 : cont3ok b0 b1 = true) (h2 : 0x80 ≤ b2) (h2' : b2 ≤ 0xBF)
    (h3 : 0x80 ≤ b3) (h3' : b3 ≤ 0xBF) :
    utf8Valid [b0, b1, b2, b3] = true ∧
      utf8First [b0, b1, b2, b3] =
        some ((b0 - 0xF0) * 0x40000 + (b1 - 0x80) * 0x1000 + (b2 - 0x80) * 0x40 + (b3 - 0x80)) := by
  have hd : utf8DecodeOne [b0, b1, b2, b3] =
      some ((b0 - 0xF0) * 0x40000 + (b1 - 0x80) * 0x1000 + (b2 - 0x80) * 0x40 + (b3 - 0x80), []) := by
    simp only [utf8DecodeOne, utf8Tail4, isCont]
    rw [if_neg (by omega), if_neg (by omega), if_neg (by omega), if_neg (by omega),
      if_pos (by omega), if_pos (by simp [hc3]; omega)]
  refine ⟨?_, by simp [utf8First, hd]⟩
  rw [utf8Valid_cons, hd]
  try rfl

theorem read_buflen (src : List Nat) :
    ∀ (e : Encoding) (buf : List Nat) (pos : Nat),
      (read_char_from src e buf pos).buf.length = buf.length := by
  induction src with
  | nil =>
    intro e buf pos
    rw [read_char_from]
    split_ifs <;> rfl
  | cons next rest ih =>
    intro e buf pos
    cases e <;> rw [read_char_from]
    all_goals repeat' split
    all_goals simp [ih, List.length_set]

theorem len4 {l : List Nat} (h : l.length = 4) : ∃ a b c d, l = [a, b, c, d] := by
  rcases l with _ | ⟨a, _ | ⟨b, _ | ⟨c, _ | ⟨d, _ | ⟨e, t⟩⟩⟩⟩⟩ <;>
    simp only [List.length_nil, List.length_cons] at h <;>
    first | exact ⟨a, b, c, d, rfl⟩ | omega

theorem read_one_utf8 (e : Encoding) (he : e = .Utf8 ∨ e = .Default)
    (c : Nat) (hc : isScalar c = true) (rest buf : List Nat) (hb : buf.length = 4) :
    (read_char_from (utf8Encode c ++ rest) e buf 0).res = .ok (some c) ∧
    (read_char_from (utf8Encode c ++ rest) e buf 0).enc = e ∧
    (read_char_from (utf8Encode c ++ rest) e buf 0).rest = rest := by
  simp only [isScalar, Bool.or_eq_true, decide_eq_true_eq, Bool.and_eq_true] at hc
  obtain ⟨a0, a1, a2, a3, rfl⟩ := len4 hb
  by_cases h1 : c < 0x80
  · simp only [utf8Encode, if_pos h1, List.cons_append, List.nil_append]
    rw [read_utf8_cons e he _ _ _ _ (by omega), if_pos ⟨rfl, h1⟩]
    exact ⟨rfl, rfl, rfl⟩
  · by_cases h2 : c < 0x800
    · simp only [utf8Encode, if_neg h1, if_pos h2, List.cons_append, List.nil_append]
      rw [read_utf8_cons e he _ _ _ _ (by omega), if_neg (by rintro ⟨-, hx⟩; omega)]
      simp only [List.set_cons_zero, List.take_succ_cons, List.take_zero]
      rw [utf8Valid_single _ (by omega), if_neg (by simp), if_pos (by omega)]
      rw [read_utf8_cons e he _ _ _ _ (by omega), if_neg (by rintro ⟨h0, -⟩; omega)]
      simp only [List.set_cons_succ, List.set_cons_zero, List.take_succ_cons, List.take_zero]
      have hx := utf8_two (0xC0 + c / 0x40) (0x80 + c % 0x40) (by omega) (by omega) (by omega) (by omega)
      rw [hx.1, if_pos rfl]
      simp only [hx.2]
      have hv : (0xC0 + c / 0x40 - 0xC0) * 0x40 + (0x80 + c % 0x40 - 0x80) = c := by omega
      rw [hv]
      exact ⟨by trivial, by trivial, by trivial⟩
    · by_cases h3 : c < 0x10000
      · simp only [utf8Encode, if_neg h1, if_neg h2, if_pos h3, List.cons_append, List.nil_append]
        rw [read_utf8_cons e he _ _ _ _ (by omega), if_neg (by rintro ⟨-, hx⟩; omega)]
        simp only [List.set_cons_zero, List.take_succ_cons, List.take_zero]
        rw [utf8Valid_single _ (by omega), if_neg (by simp), if_pos (by omega)]
        rw [read_utf8_cons e he _ _ _ _ (by omega), if_neg (by rintro ⟨h0, -⟩; omega)]
        simp only [List.set_cons_succ, List.set_cons_zero, List.take_succ_cons, List.take_zero]
        rw [utf8Valid_two_short _ _ (by omega), if_neg (by simp), if_pos (by omega)]
        rw [read_utf8_cons e he _ _ _ _ (by omega), if_neg (by rintro ⟨h0, -⟩; omega)]
        simp only [List.set_cons_succ, List.set_cons_zero, List.take_succ_cons, List.take_zero]
        have hcont : cont2ok (0xE0 + c / 0x1000) (0x80 + (c / 0x40) % 0x40) = true := by
          simp only [cont2ok, isCont]
          split_ifs <;> simp <;> omega
        have hx := utf8_three (0xE0 + c / 0x1000) (0x80 + (c / 0x40) % 0x40) (0x80 + c % 0x40)
          (by omega) (by omega) hcont (by omega) (by omega)
        rw [hx.1, if_pos rfl]
        simp only [hx.2]
        have hv : (0xE0 + c / 0x1000 - 0xE0) * 0x1000 + (0x80 + (c / 0x40) % 0x40 - 0x80) * 0x40 +
            (0x80 + c % 0x40 - 0x80) = c := by omega
        rw [hv]
        exact ⟨by trivial, by trivial, by trivial⟩
      · simp only [utf8Encode, if_neg h1, if_neg h2, if_neg h3, List.cons_append, List.nil_append]
        rw [read_utf8_cons e he _ _ _ _ (by omega), if_neg (by rintro ⟨-, hx⟩; omega)]
        simp only [List.set_cons_zero, List.take_succ_cons, List.take_zero]
        rw [utf8Valid_single _ (by omega), if_neg (by simp), if_pos (by omega)]
        rw [read_utf8_cons e he _ _ _ _ (by omega), if_neg (by rintro ⟨h0, -⟩; omega)]
        simp only [List.set_cons_succ, List.set_cons_zero, List.take_succ_cons, List.take_zero]
        rw [utf8Valid_two_short _ _ (by omega), if_neg (by simp), if_pos (by omega)]
        rw [read_utf8_cons e he _ _ _ _ (by omega), if_neg (by rintro ⟨h0, -⟩; omega)]
        simp only [List.set_cons_succ, List.set_cons_zero, List.take_succ_cons, List.take_zero]
        rw [utf8Valid_three_short _ _ _ (by omega), if_neg (by simp), if_pos (by omega)]
        rw [read_utf8_cons e he _ _ _ _ (by omega), if_neg (by rintro ⟨h0, -⟩; omega)]
        simp only [List.set_cons_succ, List.set_cons_zero, List.take_succ_cons, List.take_zero]
        have hcont : cont3ok (0xF0 + c / 0x40000) (0x80 + (c / 0x1000) % 0x40) = true := by
          simp only [cont3ok, isCont]
          split_ifs <;> simp <;> omega
        have hx := utf8_four (0xF0 + c / 0x40000) (0x80 + (c / 0x1000) % 0x40)
          (0x80 + (c / 0x40) % 0x40) (0x80 + c % 0x40)
          (by omega) (by omega) hcont (by omega) (by omega) (by omega) (by omega)
        rw [hx.1, if_pos rfl]
        simp only [hx.2]
        have hv : (0xF0 + c / 0x40000 - 0xF0) * 0x40000 + (0x80 + (c / 0x1000) % 0x40 - 0x80) * 0x1000 +
            (0x80 + (c / 0x40) % 0x40 - 0x80) * 0x40 + (0x80 + c % 0x40 - 0x80) = c := by omega
        rw [hv]
        exact ⟨by trivial, by trivial, by trivial⟩

theorem be_step0 (x : Nat) (rest : List Nat) (a0 a1 a2 a3 : Nat) :
    read_char_from (x :: rest) .Utf16Be [a0, a1, a2, a3] 0 =
      read_char_from rest .Utf16Be [x, a1, a2, a3] 1 := by
  conv_lhs => rw [read_char_from]
  norm_num

theorem be_step1 (x : Nat) (rest : List Nat) (b0 a1 a2 a3 : Nat) :
    read_char_from (x :: rest) .Utf16Be [b0, a1, a2, a3] 1 =
      if isSurrogateUnit (be16 b0 x) then read_char_from rest .Utf16Be [b0, x, a2, a3] 2
      else ⟨.ok (some (be16 b0 x)), .Utf16Be, [b0, x, a2, a3], 2, rest⟩ := by
  conv_lhs => rw [read_char_from]
  norm_num

theorem be_step2 (x : Nat) (rest : List Nat) (b0 b1 a2 a3 : Nat) :
    read_char_from (x :: rest) .Utf16Be [b0, b1, a2, a3] 2 =
      read_char_from rest .Utf16Be [b0, b1, x, a3] 3 := by
  conv_lhs => rw [read_char_from]
  norm_num

theorem be_step3 (x : Nat) (rest : List Nat) (b0 b1 b2 a3 : Nat) :
    read_char_from (x :: rest) .Utf16Be [b0, b1, b2, a3] 3 =
      ⟨surrogate (be16 b0 b1) (be16 b2 x), .Utf16Be, [b0, b1, b2, x], 4, rest⟩ := by
  conv_lhs => rw [read_char_from]
  norm_num

theorem read_one_be (c : Nat) (hc : isScalar c = true) (rest buf : List Nat) (hb : buf.length = 4) :
    (read_char_from (utf16BeEncode c ++ rest) .Utf16Be buf 0).res = .ok (some c) ∧
    (read_char_from (utf16BeEncode c ++ rest) .Utf16Be buf 0).enc = .Utf16Be ∧
    (read_char_from (utf16BeEncode c ++ rest) .Utf16Be buf 0).rest = rest := by
  simp only [isScalar, Bool.or_eq_true, decide_eq_true_eq, Bool.and_eq_true] at hc
  obtain ⟨a0, a1, a2, a3, rfl⟩ := len4 hb
  by_cases h1 : c < 0x10000
  · simp only [utf16BeEncode, if_pos h1, List.cons_append, List.nil_append]
    generalize hb0 : c / 0x100 = b0
    generalize hb1 : c % 0x100 = b1
    rw [be_step0, be_step1]
    have hu : be16 b0 b1 = c := by simp only [be16]; omega
    rw [hu]
    have hs : isSurrogateUnit c = false := by
      simp only [isSurrogateUnit, Bool.and_eq_false_iff, decide_eq_false_iff_not]
      omega
    rw [hs, if_neg (by simp)]
    exact ⟨rfl, rfl, rfl⟩
  · simp only [utf16BeEncode, if_neg h1, List.cons_append, List.nil_append]
    generalize hhi : 0xD800 + (c - 0x10000) / 0x400 = hi
    generalize hlo : 0xDC00 + (c - 0x10000) % 0x400 = lo
    generalize hb0 : hi / 0x100 = b0
    generalize hb1 : hi % 0x100 = b1
    generalize hb2 : lo / 0x100 = b2
    generalize hb3 : lo % 0x100 = b3
    rw [be_step0, be_step1]
    have hu1 : be16 b0 b1 = hi := by simp only [be16]; omega
    rw [hu1]
    have hs1 : isSurrogateUnit hi = true := by
      simp only [isSurrogateUnit, Bool.and_eq_true, decide_eq_true_eq]
      omega
    rw [hs1, if_pos rfl, be_step2, be_step3]
    have hu2 : be16 b2 b3 = lo := by simp only [be16]; omega
    rw [hu1, hu2]
    have hsur : surrogate hi lo = .ok (some c) := by
      simp only [surrogate]
      rw [hs1, if_pos rfl, if_pos (by omega)]
      have hv : 0x10000 + (hi - 0xD800) * 0x400 + (lo - 0xDC00) = c := by omega
      rw [hv]
    rw [hsur]
    exact ⟨rfl, rfl, rfl⟩

theorem le_step0 (x : Nat) (rest : List Nat) (a0 a1 a2 a3 : Nat) :
    read_char_from (x :: rest) .Utf16Le [a0, a1, a2, a3] 0 =
      read_char_from rest .Utf16Le [x, a1, a2, a3] 1 := by
  conv_lhs => rw [read_char_from]
  norm_num

theorem le_step1 (x : Nat) (rest : List Nat) (b0 a1 a2 a3 : Nat) :
    read_char_from (x :: rest) .Utf16Le [b0, a1, a2, a3] 1 =
      if isSurrogateUnit (le16 b0 x) then read_char_from rest .Utf16Le [b0, x, a2, a3] 2
      else ⟨.ok (some (le16 b0 x)), .Utf16Le, [b0, x, a2, a3], 2, rest⟩ := by
  conv_lhs => rw [read_char_from]
  norm_num

theorem le_step2 (x : Nat) (rest : List Nat) (b0 b1 a2 a3 : Nat) :
    read_char_from (x :: rest) .Utf16Le [b0, b1, a2, a3] 2 =
      read_char_from rest .Utf16Le [b0, b1, x, a3] 3 := by
  conv_lhs => rw [read_char_from]
  norm_num

theorem le_step3 (x : Nat) (rest : List Nat) (b0 b1 b2 a3 : Nat) :
    read_char_from (x :: rest) .Utf16Le [b0, b1, b2, a3] 3 =
      ⟨surrogate (le16 b0 b1) (le16 b2 x), .Utf16Le, [b0, b1, b2, x], 4, rest⟩ := by
  conv_lhs => rw [read_char_from]
  norm_num

theorem read_one_le (c : Nat) (hc : isScalar c = true) (rest buf : List Nat) (hb : buf.length = 4) :
    (read_char_from (utf16LeEncode c ++ rest) .Utf16Le buf 0).res = .ok (some c) ∧
    (read_char_from (utf16LeEncode c ++ rest) .Utf16Le buf 0).enc = .Utf16Le ∧
    (read_char_from (utf16LeEncode c ++ rest) .Utf16Le buf 0).rest = rest := by
  simp only [isScalar, Bool.or_eq_true, decide_eq_true_eq, Bool.and_eq_true] at hc
  obtain ⟨a0, a1, a2, a3, rfl⟩ := len4 hb
  by_cases h1 : c < 0x10000
  · simp only [utf16LeEncode, if_pos h1, List.cons_append, List.nil_append]
    generalize hb0 : c % 0x100 = b0
    generalize hb1 : c / 0x100 = b1
    rw [le_step0, le_step1]
    have hu : le16 b0 b1 = c := by simp only [le16]; omega
    rw [hu]
    have hs : isSurrogateUnit c = false := by
      simp only [isSurrogateUnit, Bool.and_eq_false_iff, decide_eq_false_iff_not]
      omega
    rw [hs, if_neg (by simp)]
    exact ⟨rfl, rfl, rfl⟩
  · simp only [utf16LeEncode, if_neg h1, List.cons_append, List.nil_append]
    generalize hhi : 0xD800 + (c - 0x10000) / 0x400 = hi
    generalize hlo : 0xDC00 + (c - 0x10000) % 0x400 = lo
    generalize hb0 : hi % 0x100 = b0
    generalize hb1 : hi / 0x100 = b1
    generalize hb2 : lo % 0x100 = b2
    generalize hb3 : lo / 0x100 = b3
    rw [le_step0, le_step1]
    have hu1 : le16 b0 b1 = hi := by simp only [le16]; omega
    rw [hu1]
    have hs1 : isSurrogateUnit hi = true := by
      simp only [isSurrogateUnit, Bool.and_eq_true, decide_eq_true_eq]
      omega
    rw [hs1, if_pos rfl, le_step2, le_step3]
    have hu2 : le16 b2 b3 = lo := by simp only [le16]; omega
    rw [hu1, hu2]
    have hsur : surrogate hi lo = .ok (some c) := by
      simp only [surrogate]
      rw [hs1, if_pos rfl, if_pos (by omega)]
      have hv : 0x10000 + (hi - 0xD800) * 0x400 + (lo - 0xDC00) = c := by omega
      rw [hv]
    rw [hsur]
    exact ⟨rfl, rfl, rfl⟩

theorem bom_utf8_step (rest : List Nat) (a0 a1 a2 a3 : Nat) :
    read_char_from (0xEF :: 0xBB :: 0xBF :: rest) .Unknown [a0, a1, a2, a3] 0 =
      read_char_from rest .Utf8 [0xEF, 0xBB, 0xBF, a3] 0 := by
  conv_lhs => rw [read_char_from]
  norm_num [sniff_bom, isInitSeg]
  conv_lhs => rw [read_char_from]
  norm_num [sniff_bom, isInitSeg]
  conv_lhs => rw [read_char_from]
  norm_num [sniff_bom, isInitSeg]
  rw [if_neg (by decide)]

theorem bom_be_step (e : Encoding) (he : e = .Unknown ∨ e = .Utf16) (rest : List Nat)
    (a0 a1 a2 a3 : Nat) :
    read_char_from (0xFE :: 0xFF :: rest) e [a0, a1, a2, a3] 0 =
      read_char_from rest .Utf16Be [0xFE, 0xFF, a2, a3] 0 := by
  rcases he with h | h <;> subst h <;>
    ((conv_lhs => rw [read_char_from]); norm_num [sniff_bom, isInitSeg];
     (conv_lhs => rw [read_char_from]); norm_num [sniff_bom, isInitSeg])

theorem bom_le_step (e : Encoding) (he : e = .Unknown ∨ e = .Utf16) (rest : List Nat)
    (a0 a1 a2 a3 : Nat) :
    read_char_from (0xFF :: 0xFE :: rest) e [a0, a1, a2, a3] 0 =
      read_char_from rest .Utf16Le [0xFF, 0xFE, a2, a3] 0 := by
  rcases he with h | h <;> subst h <;>
    ((conv_lhs => rw [read_char_from]); norm_num [sniff_bom, isInitSeg];
     (conv_lhs => rw [read_char_from]); norm_num [sniff_bom, isInitSeg])

theorem utf16_classify_step (b : Nat) (hb : b ≠ 0xEF ∧ b ≠ 0xFE ∧ b ≠ 0xFF)
    (rest : List Nat) (a0 a1 a2 a3 : Nat) :
    read_char_from (b :: rest) .Utf16 [a0, a1, a2, a3] 0 =
      read_char_from rest (if b = 0 then .Utf16Be else .Utf16Le) [b, a1, a2, a3] 1 := by
  conv_lhs => rw [read_char_from]
  norm_num [sniff_bom, isInitSeg, hb.1, hb.2.1, hb.2.2]

theorem unknown_default_step (b : Nat) (hb : b ≠ 0xEF ∧ b ≠ 0xFE ∧ b ≠ 0xFF)
    (rest : List Nat) (a0 a1 a2 a3 : Nat) :
    read_char_from (b :: rest) .Unknown [a0, a1, a2, a3] 0 =
      if b < 0x80 then ⟨.ok (some b), .Default, [b, a1, a2, a3], 1, rest⟩
      else read_char_from rest .Default [b, a1, a2, a3] 1 := by
  conv_lhs => rw [read_char_from]
  norm_num [sniff_bom, isInitSeg, hb.1, hb.2.1, hb.2.2]
  rw [if_neg (by decide)]
  by_cases h0 : b < 0x80
  · rw [if_pos h0, if_pos h0]
  · rw [if_neg h0, if_neg h0]

theorem decodeAllAux_congr (fuel : Nat) {src1 src2 : List Nat} {e1 e2 : Encoding}
    {b1 b2 : List Nat} (h : read_char_from src1 e1 b1 0 = read_char_from src2 e2 b2 0) :
    decodeAllAux fuel src1 e1 b1 = decodeAllAux fuel src2 e2 b2 := by
  cases fuel with
  | zero => rfl
  | succ n => simp only [decodeAllAux, h]

theorem decodeAllAux_of_step (E : Encoding) (f : Nat → List Nat) (P : Nat → Bool)
    (hstep : ∀ c rest buf, buf.length = 4 → P c = true →
      (read_char_from (f c ++ rest) E buf 0).res = .ok (some c) ∧
      (read_char_from (f c ++ rest) E buf 0).enc = E ∧
      (read_char_from (f c ++ rest) E buf 0).rest = rest)
    (hne : ∀ c, P c = true → f c ≠ []) :
    ∀ (S : List Nat) (fuel : Nat) (buf : List Nat), buf.length = 4 →
      (∀ c ∈ S, P c = true) → (S.flatMap f).length < fuel →
      decodeAllAux fuel (S.flatMap f) E buf = .ok S := by
  intro S
  induction S with
  | nil =>
    intro fuel buf hb _ hf
    cases fuel with
    | zero => omega
    | succ n =>
      simp only [List.flatMap_nil] at hf ⊢
      rw [decodeAllAux]
      rw [read_nil]
  | cons c S ih =>
    intro fuel buf hb hP hf
    cases fuel with
    | zero => omega
    | succ n =>
      simp only [List.flatMap_cons] at hf ⊢
      obtain ⟨h1, h2, h3⟩ := hstep c (S.flatMap f) buf hb (hP c (by simp))
      have hb2 : (read_char_from (f c ++ S.flatMap f) E buf 0).buf.length = 4 := by
        rw [read_buflen]; exact hb
      have hfc : f c ≠ [] := hne c (hP c (by simp))
      rw [decodeAllAux]
      rw [h1, h2, h3]
      rw [ih n _ hb2 (fun x hx => hP x (by simp [hx])) (by
        rw [List.length_append] at hf
        have : 1 ≤ (f c).length := by
          cases hfc' : f c with
          | nil => exact absurd hfc' hfc
          | cons a l => simp
        omega)]
      rfl

theorem sniff_some_shape (e : Encoding) (b : List Nat) (p : Nat) :
    ∀ e2 p2 v, sniff_bom e b p = (e2, p2, some v) → ∃ d, v = .ok (some d) := by
  intro e2 p2 v h
  unfold sniff_bom at h
  split_ifs at h <;> simp_all
  exact ⟨_, h.2.2.symm⟩

theorem surrogate_ne_none (u1 u2 : Nat) : surrogate u1 u2 ≠ .ok none := by
  unfold surrogate
  split_ifs <;> simp

theorem utf8First_of_valid (b0 : Nat) (r0 : List Nat) (hv : utf8Valid (b0 :: r0) = true) :
    ∃ d, utf8First (b0 :: r0) = some d := by
  rw [utf8Valid_cons] at hv
  cases hd : utf8DecodeOne (b0 :: r0) with
  | none => rw [hd] at hv; simp at hv
  | some p => exact ⟨p.1, by simp [utf8First, hd]⟩

theorem read_ok_none_clean (src : List Nat) :
    ∀ (e : Encoding) (buf : List Nat) (pos : Nat), buf.length = 4 →
      (read_char_from src e buf pos).res = .ok none →
      (read_char_from src e buf pos).rest = [] ∧ (read_char_from src e buf pos).pos = 0 := by
  induction src with
  | nil =>
    intro e buf pos hb h
    rw [read_char_from] at h ⊢
    split_ifs at h ⊢ with h4 hp <;> simp_all
  | cons next rest ih =>
    intro e buf pos hb h
    have hb' : ∀ (x p : Nat), ((buf.set p x) : List Nat).length = 4 := fun x p => by
      simp [List.length_set, hb]
    cases e
    case Latin1 =>
      rw [read_char_from] at h ⊢
      split_ifs at h ⊢ <;> simp_all
    case Ascii =>
      rw [read_char_from] at h ⊢
      split_ifs at h ⊢ <;> simp_all
    case Utf8 =>
      rw [read_char_from] at h ⊢
      split_ifs at h ⊢ <;> try simp_all
      all_goals try (exact ih _ _ _ (hb' _ _) h)
      all_goals
        (rename_i hval
         rcases hsl : List.take (pos + 1) (buf.set pos next) with _ | ⟨b0, r0⟩
         · have hlen := congrArg List.length hsl
           simp only [List.length_take, List.length_set, hb, List.length_nil] at hlen
           omega
         · rw [hsl] at hval h
           obtain ⟨d, hd⟩ := utf8First_of_valid b0 r0 hval
           rw [hd] at h
           simp at h)
    case Default =>
      rw [read_char_from] at h ⊢
      split_ifs at h ⊢ <;> try simp_all
      all_goals try (exact ih _ _ _ (hb' _ _) h)
      all_goals
        (rename_i hval
         rcases hsl : List.take (pos + 1) (buf.set pos next) with _ | ⟨b0, r0⟩
         · have hlen := congrArg List.length hsl
           simp only [List.length_take, List.length_set, hb, List.length_nil] at hlen
           omega
         · rw [hsl] at hval h
           obtain ⟨d, hd⟩ := utf8First_of_valid b0 r0 hval
           rw [hd] at h
           simp at h)
    case Unknown =>
      rw [read_char_from] at h ⊢
      split_ifs at h ⊢ <;> try simp_all
      all_goals
        (rcases hsb : sniff_bom .Unknown (List.take (pos + 1) (buf.set pos next)) (pos + 1)
            with ⟨enc2, pos2, _ | v⟩
         · rw [hsb] at h
           exact ih _ _ _ (by simp [List.length_set, hb]) h
         · obtain ⟨d, rfl⟩ := sniff_some_shape _ _ _ _ _ _ hsb
           rw [hsb] at h
           simp at h)
    case Utf16 =>
      rw [read_char_from] at h ⊢
      split_ifs at h ⊢ <;> try simp_all
      all_goals
        (rcases hsb : sniff_bom .Utf16 (List.take (pos + 1) (buf.set pos next)) (pos + 1)
            with ⟨enc2, pos2, _ | v⟩
         · rw [hsb] at h
           exact ih _ _ _ (by simp [List.length_set, hb]) h
         · obtain ⟨d, rfl⟩ := sniff_some_shape _ _ _ _ _ _ hsb
           rw [hsb] at h
           simp at h)
    case Utf16Be =>
      rw [read_char_from] at h ⊢
      split_ifs at h ⊢ <;> try simp_all
      all_goals try (exact absurd h (surrogate_ne_none _ _))
      all_goals try (exact ih _ _ _ (hb' _ _) h)
    case Utf16Le =>
      rw [read_char_from] at h ⊢
      split_ifs at h ⊢ <;> try simp_all
      all_goals try (exact absurd h (surrogate_ne_none _ _))
      all_goals try (exact ih _ _ _ (hb' _ _) h)

theorem sniff_some_enc (e : Encoding) (b : List Nat) (p : Nat) :
    ∀ e2 p2 v, sniff_bom e b p = (e2, p2, some v) → e2 = .Default := by
  intro e2 p2 v h
  unfold sniff_bom at h
  split_ifs at h <;> simp_all

theorem read_enc_preserve (src : List Nat) :
    ∀ (e : Encoding) (buf : List Nat) (pos : Nat), e ≠ .Unknown → e ≠ .Utf16 →
      (read_char_from src e buf pos).enc = e := by
  induction src with
  | nil =>
    intro e buf pos _ _
    rw [read_char_from]
    split_ifs <;> rfl
  | cons next rest ih =>
    intro e buf pos h1 h2
    cases e <;> try (exact absurd rfl h1)
    all_goals try (exact absurd rfl h2)
    all_goals rw [read_char_from]
    all_goals split_ifs <;> try rfl
    all_goals exact ih _ _ _ (by simp) (by simp)

theorem read_enc_concrete (src : List Nat) :
    ∀ (e : Encoding) (buf : List Nat) (pos : Nat) (c : Nat),
      (read_char_from src e buf pos).res = .ok (some c) →
      (read_char_from src e buf pos).enc ≠ .Unknown ∧
      (read_char_from src e buf pos).enc ≠ .Utf16 := by
  induction src with
  | nil =>
    intro e buf pos c h
    rw [read_char_from] at h
    split_ifs at h <;> simp_all
  | cons next rest ih =>
    intro e buf pos c h
    cases e
    all_goals rw [read_char_from] at h ⊢
    all_goals split_ifs at h ⊢ <;> try simp_all
    all_goals try (exact ih _ _ _ _ h)
    -- sniff match cases
    all_goals
      (rename_i henc4
       first
        | (rcases hsb : sniff_bom .Unknown (List.take (pos + 1) (buf.set pos next)) (pos + 1)
              with ⟨enc2, pos2, _ | v⟩
           · rw [hsb] at h
             exact ih _ _ _ _ h
           · have hd := sniff_some_enc _ _ _ _ _ _ hsb
             subst hd
             exact ⟨fun hax => Encoding.noConfusion hax, fun hax => Encoding.noConfusion hax⟩)
        | (rcases hsb : sniff_bom .Utf16 (List.take (pos + 1) (buf.set pos next)) (pos + 1)
              with ⟨enc2, pos2, _ | v⟩
           · rw [hsb] at h
             exact ih _ _ _ _ h
           · have hd := sniff_some_enc _ _ _ _ _ _ hsb
             subst hd
             exact ⟨fun hax => Encoding.noConfusion hax, fun hax => Encoding.noConfusion hax⟩))

theorem utf8Encode_ne_nil (c : Nat) : utf8Encode c ≠ [] := by
  unfold utf8Encode
  split_ifs <;> simp

theorem utf16BeEncode_ne_nil (c : Nat) : utf16BeEncode c ≠ [] := by
  unfold utf16BeEncode
  split_ifs <;> simp

theorem utf16LeEncode_ne_nil (c : Nat) : utf16LeEncode c ≠ [] := by
  unfold utf16LeEncode
  split_ifs <;> simp

theorem read_one_latin1 (c : Nat) (rest buf : List Nat) (hb : buf.length = 4) :
    (read_char_from ([c] ++ rest) .Latin1 buf 0).res = .ok (some c) ∧
    (read_char_from ([c] ++ rest) .Latin1 buf 0).enc = .Latin1 ∧
    (read_char_from ([c] ++ rest) .Latin1 buf 0).rest = rest := by
  rw [List.cons_append, List.nil_append, read_latin1_cons _ _ _ _ (by omega)]
  exact ⟨rfl, rfl, rfl⟩

theorem read_one_ascii (c : Nat) (hc : c < 0x80) (rest buf : List Nat) (hb : buf.length = 4) :
    (read_char_from ([c] ++ rest) .Ascii buf 0).res = .ok (some c) ∧
    (read_char_from ([c] ++ rest) .Ascii buf 0).enc = .Ascii ∧
    (read_char_from ([c] ++ rest) .Ascii buf 0).rest = rest := by
  rw [List.cons_append, List.nil_append, read_ascii_cons _ _ _ _ (by omega), if_pos hc]
  exact ⟨rfl, rfl, rfl⟩


theorem encodeChar_utf8 : ExtEncoding.utf8.encodeChar = utf8Encode := funext fun c => rfl

theorem encodeChar_be (bom : Bool) : (ExtEncoding.utf16be bom).encodeChar = utf16BeEncode :=
  funext fun c => rfl

theorem encodeChar_le (bom : Bool) : (ExtEncoding.utf16le bom).encodeChar = utf16LeEncode :=
  funext fun c => rfl

theorem encodeChar_latin1 : ExtEncoding.latin1.encodeChar = fun c => [c] := funext fun c => rfl

theorem encodeChar_ascii : ExtEncoding.ascii.encodeChar = fun c => [c] := funext fun c => rfl


theorem utf8_incomplete_eof (e : Encoding) (he : e = .Utf8 ∨ e = .Default) (c : Nat)
    (hc : isScalar c = true) (h8 : 0x80 ≤ c) (k : Nat) (hk0 : 0 < k)
    (hk : k < (utf8Encode c).length) (buf : List Nat) (hb : buf.length = 4) :
    (read_char_from ((utf8Encode c).take k) e buf 0).res = .error .UnexpectedEof := by
  simp only [isScalar, Bool.or_eq_true, decide_eq_true_eq, Bool.and_eq_true] at hc
  obtain ⟨a0, a1, a2, a3, rfl⟩ := len4 hb
  by_cases h2 : c < 0x800
  · simp only [utf8Encode, if_neg (by omega : ¬ c < 0x80), if_pos h2] at hk ⊢
    simp only [List.length_cons, List.length_nil] at hk
    have hk1 : k = 1 := by omega
    subst hk1
    simp only [List.take_succ_cons, List.take_zero]
    rw [read_utf8_cons e he _ _ _ _ (by omega), if_neg (by rintro ⟨-, hx⟩; omega)]
    simp only [List.set_cons_zero, List.take_succ_cons, List.take_zero]
    rw [utf8Valid_single _ (by omega), if_neg (by simp), if_pos (by omega),
      read_nil_mid _ _ _ (by omega) (by omega)]
  · by_cases h3 : c < 0x10000
    · simp only [utf8Encode, if_neg (by omega : ¬ c < 0x80), if_neg h2, if_pos h3] at hk ⊢
      simp only [List.length_cons, List.length_nil] at hk
      have hk1 : k = 1 ∨ k = 2 := by omega
      rcases hk1 with rfl | rfl
      · simp only [List.take_succ_cons, List.take_zero]
        rw [read_utf8_cons e he _ _ _ _ (by omega), if_neg (by rintro ⟨-, hx⟩; omega)]
        simp only [List.set_cons_zero, List.take_succ_cons, List.take_zero]
        rw [utf8Valid_single _ (by omega), if_neg (by simp), if_pos (by omega),
          read_nil_mid _ _ _ (by omega) (by omega)]
      · simp only [List.take_succ_cons, List.take_zero]
        rw [read_utf8_cons e he _ _ _ _ (by omega), if_neg (by rintro ⟨-, hx⟩; omega)]
        simp only [List.set_cons_zero, List.take_succ_cons, List.take_zero]
        rw [utf8Valid_single _ (by omega), if_neg (by simp), if_pos (by omega)]
        rw [read_utf8_cons e he _ _ _ _ (by omega), if_neg (by rintro ⟨h0, -⟩; omega)]
        simp only [List.set_cons_succ, List.set_cons_zero, List.take_succ_cons, List.take_zero]
        rw [utf8Valid_two_short _ _ (by omega), if_neg (by simp), if_pos (by omega),
          read_nil_mid _ _ _ (by omega) (by omega)]
    · simp only [utf8Encode, if_neg (by omega : ¬ c < 0x80), if_neg h2, if_neg h3] at hk ⊢
      simp only [List.length_cons, List.length_nil] at hk
      have hk1 : k = 1 ∨ k = 2 ∨ k = 3 := by omega
      rcases hk1 with rfl | rfl | rfl
      · simp only [List.take_succ_cons, List.take_zero]
        rw [read_utf8_cons e he _ _ _ _ (by omega), if_neg (by rintro ⟨-, hx⟩; omega)]
        simp only [List.set_cons_zero, List.take_succ_cons, List.take_zero]
        rw [utf8Valid_single _ (by omega), if_neg (by simp), if_pos (by omega),
          read_nil_mid _ _ _ (by omega) (by omega)]
      · simp only [List.take_succ_cons, List.take_zero]
        rw [read_utf8_cons e he _ _ _ _ (by omega), if_neg (by rintro ⟨-, hx⟩; omega)]
        simp only [List.set_cons_zero, List.take_succ_cons, List.take_zero]
        rw [utf8Valid_single _ (by omega), if_neg (by simp), if_pos (by omega)]
        rw [read_utf8_cons e he _ _ _ _ (by omega), if_neg (by rintro ⟨h0, -⟩; omega)]
        simp only [List.set_cons_succ, List.set_cons_zero, List.take_succ_cons, List.take_zero]
        rw [utf8Valid_two_short _ _ (by omega), if_neg (by simp), if_pos (by omega),
          read_nil_mid _ _ _ (by omega) (by omega)]
      · simp only [List.take_succ_cons, List.take_zero]
        rw [read_utf8_cons e he _ _ _ _ (by omega), if_neg (by rintro ⟨-, hx⟩; omega)]
        simp only [List.set_cons_zero, List.take_succ_cons, List.take_zero]
        rw [utf8Valid_single _ (by omega), if_neg (by simp), if_pos (by omega)]
        rw [read_utf8_cons e he _ _ _ _ (by omega), if_neg (by rintro ⟨h0, -⟩; omega)]
        simp only [List.set_cons_succ, List.set_cons_zero, List.take_succ_cons, List.take_zero]
        rw [utf8Valid_two_short _ _ (by omega), if_neg (by simp), if_pos (by omega)]
        rw [read_utf8_cons e he _ _ _ _ (by omega), if_neg (by rintro ⟨h0, -⟩; omega)]
        simp only [List.set_cons_succ, List.set_cons_zero, List.take_succ_cons, List.take_zero]
        rw [utf8Valid_three_short _ _ _ (by omega), if_neg (by simp), if_pos (by omega),
          read_nil_mid _ _ _ (by omega) (by omega)]

theorem utf8_badlead_error (e : Encoding) (he : e = .Utf8 ∨ e = .Default) (b b1 b2 b3 : Nat)
    (hbad : (0x80 ≤ b ∧ b < 0xC2) ∨ 0xF4 < b) (rest buf : List Nat) (hb : buf.length = 4) :
    (read_char_from (b :: b1 :: b2 :: b3 :: rest) e buf 0).res = .error .Utf8 := by
  obtain ⟨a0, a1, a2, a3, rfl⟩ := len4 hb
  rw [read_utf8_cons e he _ _ _ _ (by omega), if_neg (by rintro ⟨-, hx⟩; omega)]
  simp only [List.set_cons_zero, List.take_succ_cons, List.take_zero]
  rw [utf8Valid_badlead _ _ hbad, if_neg (by simp), if_pos (by omega)]
  rw [read_utf8_cons e he _ _ _ _ (by omega), if_neg (by rintro ⟨h0, -⟩; omega)]
  simp only [List.set_cons_succ, List.set_cons_zero, List.take_succ_cons, List.take_zero]
  rw [utf8Valid_badlead _ _ hbad, if_neg (by simp), if_pos (by omega)]
  rw [read_utf8_cons e he _ _ _ _ (by omega), if_neg (by rintro ⟨h0, -⟩; omega)]
  simp only [List.set_cons_succ, List.set_cons_zero, List.take_succ_cons, List.take_zero]
  rw [utf8Valid_badlead _ _ hbad, if_neg (by simp), if_pos (by omega)]
  rw [read_utf8_cons e he _ _ _ _ (by omega), if_neg (by rintro ⟨h0, -⟩; omega)]
  simp only [List.set_cons_succ, List.set_cons_zero, List.take_succ_cons, List.take_zero]
  rw [utf8Valid_badlead _ _ hbad, if_neg (by simp), if_neg (by omega)]

theorem utf16_bom_error (b : Nat) (rest : List Nat) (a0 a1 a2 a3 : Nat) :
    read_char_from (0xEF :: 0xBB :: 0xBF :: b :: rest) .Utf16 [a0, a1, a2, a3] 0 =
      ⟨.error (.IoErr .InvalidData), .Default, [0xEF, 0xBB, 0xBF, b], 4, rest⟩ := by
  conv_lhs => rw [read_char_from]
  norm_num [sniff_bom, isInitSeg]
  conv_lhs => rw [read_char_from]
  norm_num [sniff_bom, isInitSeg]
  conv_lhs => rw [read_char_from]
  norm_num [sniff_bom, isInitSeg]
  conv_lhs => rw [read_char_from]
  norm_num [sniff_bom, isInitSeg]
  rw [read_full _ _ _ _ (by omega)]

theorem enc_mem_of_ne (e : Encoding) (h1 : e ≠ .Unknown) (h2 : e ≠ .Utf16) :
    e ∈ [Encoding.Utf8, .Default, .Latin1, .Ascii, .Utf16Be, .Utf16Le] := by
  cases e <;> simp_all

/-! ### Claim theorems -/

/-- C1: For every input byte sequence, initial encoding, and initial buffer
state, the blocking decoder `read_char_from` and the suspending decoder
`async_read_char_from` produce identical results: the same decoded
codepoint or error, the same final encoding and buffer, and the same
remaining (unconsumed) bytes. -/
theorem C1_blocking_suspending_agree :
    ∀ (src : List Nat) (encoding : Encoding) (buf : List Nat) (pos : Nat),
      async_read_char_from src encoding buf pos = read_char_from src encoding buf pos := by
  intro src
  induction src with
  | nil => intro encoding buf pos; simp [read_char_from, async_read_char_from]
  | cons next rest ih =>
    intro encoding buf pos
    simp only [read_char_from, async_read_char_from, ih]

/-- C2 counterexample: with initial encoding `Utf16`, the UTF-8 BOM
`EF BB BF` does not resolve the encoding to UTF-8; on input
`EF BB BF 41` the decoder reads four bytes, falls back to `Default` and
fails with an invalid-data error instead of consuming the BOM. -/
theorem C2_counterexample :
    (read_char_from [0xEF, 0xBB, 0xBF, 0x41] .Utf16 [0, 0, 0, 0] 0).res =
        .error (.IoErr .InvalidData) ∧
    (read_char_from [0xEF, 0xBB, 0xBF, 0x41] .Utf16 [0, 0, 0, 0] 0).enc = .Default := by
  decide

/-- C2 (amended): one-time sniffing on the buffered prefix, in priority
order.  `EF BB BF` resolves to UTF-8 with the BOM consumed and not
emitted, but only when the initial encoding is `Unknown`; when it is
`Utf16`, the UTF-8 BOM is not honoured and decoding fails with an
invalid-data error after a fourth byte.  `FE FF` resolves to UTF-16
big-endian and `FF FE` to UTF-16 little-endian under both `Unknown` and
`Utf16`, consuming exactly the BOM.  Otherwise, under `Utf16` with exactly
one buffered byte (necessarily not a BOM-leading byte), endianness is
classified by whether that byte is zero, keeping the byte; under `Unknown`
the encoding defaults to `Default` and the buffered byte is ordinary
content. -/
theorem C2_sniff_priority :
    (∀ (rest : List Nat) (a0 a1 a2 a3 : Nat),
      read_char_from (0xEF :: 0xBB :: 0xBF :: rest) .Unknown [a0, a1, a2, a3] 0 =
        read_char_from rest .Utf8 [0xEF, 0xBB, 0xBF, a3] 0) ∧
    (∀ (e : Encoding), e = .Unknown ∨ e = .Utf16 → ∀ (rest : List Nat) (a0 a1 a2 a3 : Nat),
      read_char_from (0xFE :: 0xFF :: rest) e [a0, a1, a2, a3] 0 =
        read_char_from rest .Utf16Be [0xFE, 0xFF, a2, a3] 0) ∧
    (∀ (e : Encoding), e = .Unknown ∨ e = .Utf16 → ∀ (rest : List Nat) (a0 a1 a2 a3 : Nat),
      read_char_from (0xFF :: 0xFE :: rest) e [a0, a1, a2, a3] 0 =
        read_char_from rest .Utf16Le [0xFF, 0xFE, a2, a3] 0) ∧
    (∀ (b : Nat), b ≠ 0xEF ∧ b ≠ 0xFE ∧ b ≠ 0xFF → ∀ (rest : List Nat) (a0 a1 a2 a3 : Nat),
      read_char_from (b :: rest) .Utf16 [a0, a1, a2, a3] 0 =
        read_char_from rest (if b = 0 then .Utf16Be else .Utf16Le) [b, a1, a2, a3] 1) ∧
    (∀ (b : Nat), b ≠ 0xEF ∧ b ≠ 0xFE ∧ b ≠ 0xFF → ∀ (rest : List Nat) (a0 a1 a2 a3 : Nat),
      read_char_from (b :: rest) .Unknown [a0, a1, a2, a3] 0 =
        if b < 0x80 then ⟨.ok (some b), .Default, [b, a1, a2, a3], 1, rest⟩
        else read_char_from rest .Default [b, a1, a2, a3] 1) ∧
    (∀ (b : Nat) (rest : List Nat) (a0 a1 a2 a3 : Nat),
      read_char_from (0xEF :: 0xBB :: 0xBF :: b :: rest) .Utf16 [a0, a1, a2, a3] 0 =
        ⟨.error (.IoErr .InvalidData), .Default, [0xEF, 0xBB, 0xBF, b], 4, rest⟩) :=
  ⟨fun rest a0 a1 a2 a3 => bom_utf8_step rest a0 a1 a2 a3,
   fun e he rest a0 a1 a2 a3 => bom_be_step e he rest a0 a1 a2 a3,
   fun e he rest a0 a1 a2 a3 => bom_le_step e he rest a0 a1 a2 a3,
   fun b hb rest a0 a1 a2 a3 => utf16_classify_step b hb rest a0 a1 a2 a3,
   fun b hb rest a0 a1 a2 a3 => unknown_default_step b hb rest a0 a1 a2 a3,
   fun b rest a0 a1 a2 a3 => utf16_bom_error b rest a0 a1 a2 a3⟩

/-- C2 witness: under declared `Utf16`, the `FE FF` BOM is consumed and
resolves the encoding to UTF-16 big-endian. -/
theorem C2_sniff_priority_witness :
    read_char_from [0xFE, 0xFF, 0x00, 0x42] .Utf16 [0, 0, 0, 0] 0 =
      read_char_from [0x00, 0x42] .Utf16Be [0xFE, 0xFF, 0, 0] 0 :=
  C2_sniff_priority.2.1 .Utf16 (Or.inr rfl) [0x00, 0x42] 0 0 0 0

/-- C3: for every supported external encoding (UTF-8, UTF-16 of either
endianness with or without BOM, ISO-8859-1, US-ASCII) and every sequence
of codepoints valid in it, encoding the sequence to bytes and repeatedly
decoding through `read_char_from` reproduces the sequence exactly,
including codepoints beyond the Basic Multilingual Plane. -/
theorem C3_roundtrip (E : ExtEncoding) (S : List Nat)
    (hS : ∀ c ∈ S, E.validCp c = true) :
    decodeAll (E.encodeSeq S) E.startEnc = .ok S := by
  cases E with
  | utf8 =>
    simp only [ExtEncoding.encodeSeq, ExtEncoding.bomBytes, List.nil_append,
      ExtEncoding.startEnc, decodeAll, encodeChar_utf8, encodeChar_be, encodeChar_le,
      encodeChar_latin1, encodeChar_ascii]
    exact decodeAllAux_of_step .Utf8 utf8Encode isScalar
      (fun c rest buf hb hc => read_one_utf8 .Utf8 (Or.inl rfl) c hc rest buf hb)
      (fun c _ => utf8Encode_ne_nil c)
      S _ _ (by norm_num) (fun c hc => hS c hc) (by omega)
  | latin1 =>
    simp only [ExtEncoding.encodeSeq, ExtEncoding.bomBytes, List.nil_append,
      ExtEncoding.startEnc, decodeAll, encodeChar_utf8, encodeChar_be, encodeChar_le,
      encodeChar_latin1, encodeChar_ascii]
    exact decodeAllAux_of_step .Latin1 (fun c => [c]) (fun c => c < 0x100)
      (fun c rest buf hb _ => read_one_latin1 c rest buf hb)
      (fun c _ => by simp)
      S _ _ (by norm_num) (fun c hc => hS c hc) (by omega)
  | ascii =>
    simp only [ExtEncoding.encodeSeq, ExtEncoding.bomBytes, List.nil_append,
      ExtEncoding.startEnc, decodeAll, encodeChar_utf8, encodeChar_be, encodeChar_le,
      encodeChar_latin1, encodeChar_ascii]
    exact decodeAllAux_of_step .Ascii (fun c => [c]) (fun c => c < 0x80)
      (fun c rest buf hb hc => read_one_ascii c (by simpa using hc) rest buf hb)
      (fun c _ => by simp)
      S _ _ (by norm_num) (fun c hc => hS c hc) (by omega)
  | utf16be bom =>
    cases bom with
    | false =>
      simp only [ExtEncoding.encodeSeq, ExtEncoding.bomBytes, List.nil_append,
        ExtEncoding.startEnc, decodeAll, encodeChar_be, encodeChar_le]
      exact decodeAllAux_of_step .Utf16Be utf16BeEncode isScalar
        (fun c rest buf hb hc => read_one_be c hc rest buf hb)
        (fun c _ => utf16BeEncode_ne_nil c)
        S _ _ (by norm_num) (fun c hc => hS c hc) (by omega)
    | true =>
      simp only [ExtEncoding.encodeSeq, ExtEncoding.bomBytes, ExtEncoding.startEnc,
        decodeAll, List.cons_append, List.nil_append, encodeChar_be, encodeChar_le]
      rw [decodeAllAux_congr _ (bom_be_step .Unknown (Or.inl rfl) _ 0 0 0 0)]
      exact decodeAllAux_of_step .Utf16Be utf16BeEncode isScalar
        (fun c rest buf hb hc => read_one_be c hc rest buf hb)
        (fun c _ => utf16BeEncode_ne_nil c)
        S _ _ (by norm_num) (fun c hc => hS c hc)
        (by simp only [List.length_cons]; omega)
  | utf16le bom =>
    cases bom with
    | false =>
      simp only [ExtEncoding.encodeSeq, ExtEncoding.bomBytes, List.nil_append,
        ExtEncoding.startEnc, decodeAll, encodeChar_be, encodeChar_le]
      exact decodeAllAux_of_step .Utf16Le utf16LeEncode isScalar
        (fun c rest buf hb hc => read_one_le c hc rest buf hb)
        (fun c _ => utf16LeEncode_ne_nil c)
        S _ _ (by norm_num) (fun c hc => hS c hc) (by omega)
    | true =>
      simp only [ExtEncoding.encodeSeq, ExtEncoding.bomBytes, ExtEncoding.startEnc,
        decodeAll, List.cons_append, List.nil_append, encodeChar_be, encodeChar_le]
      rw [decodeAllAux_congr _ (bom_le_step .Unknown (Or.inl rfl) _ 0 0 0 0)]
      exact decodeAllAux_of_step .Utf16Le utf16LeEncode isScalar
        (fun c rest buf hb hc => read_one_le c hc rest buf hb)
        (fun c _ => utf16LeEncode_ne_nil c)
        S _ _ (by norm_num) (fun c hc => hS c hc)
        (by simp only [List.length_cons]; omega)

/-- C3 witness: a BOM-prefixed big-endian UTF-16 stream containing an
ASCII letter and a non-BMP codepoint round-trips exactly. -/
theorem C3_roundtrip_witness :
    (∀ c ∈ [0x41, 0x1F60A], (ExtEncoding.utf16be true).validCp c = true) ∧
    decodeAll ((ExtEncoding.utf16be true).encodeSeq [0x41, 0x1F60A])
        (ExtEncoding.utf16be true).startEnc = .ok [0x41, 0x1F60A] :=
  ⟨by decide, C3_roundtrip (ExtEncoding.utf16be true) [0x41, 0x1F60A] (by decide)⟩

/-- C4: `read_char_from` returns `Ok(None)` only at a clean stream
boundary: the source is fully consumed and zero bytes are pending toward
the current codepoint.  When the source is exhausted while one to three
bytes of a codepoint are pending, the call reports `UnexpectedEof`
instead; and an exhausted source at a clean boundary yields `Ok(None)`. -/
theorem C4_clean_boundary :
    (∀ (src : List Nat) (e : Encoding) (buf : List Nat) (pos : Nat), buf.length = 4 →
      (read_char_from src e buf pos).res = .ok none →
      (read_char_from src e buf pos).rest = [] ∧ (read_char_from src e buf pos).pos = 0) ∧
    (∀ (e : Encoding) (buf : List Nat) (pos : Nat), 0 < pos → pos < 4 →
      (read_char_from [] e buf pos).res = .error .UnexpectedEof) ∧
    (∀ (e : Encoding) (buf : List Nat), (read_char_from [] e buf 0).res = .ok none) :=
  ⟨fun src e buf pos hb h => read_ok_none_clean src e buf pos hb h,
   fun e buf pos h0 h4 => by rw [read_nil_mid e buf pos h0 h4],
   fun e buf => by rw [read_nil]⟩

/-- C4 witness: a consumed UTF-16 BOM with nothing after it is a clean
boundary, and a stream ending after two pending bytes reports
`UnexpectedEof`. -/
theorem C4_clean_boundary_witness :
    ((read_char_from [0xFE, 0xFF] .Unknown [0, 0, 0, 0] 0).res = .ok none →
      (read_char_from [0xFE, 0xFF] .Unknown [0, 0, 0, 0] 0).rest = [] ∧
      (read_char_from [0xFE, 0xFF] .Unknown [0, 0, 0, 0] 0).pos = 0) ∧
    (read_char_from [] .Utf8 [0, 0, 0, 0] 2).res = .error .UnexpectedEof ∧
    (read_char_from [] .Unknown [0, 0, 0, 0] 0).res = .ok none :=
  ⟨C4_clean_boundary.1 [0xFE, 0xFF] .Unknown [0, 0, 0, 0] 0 (by decide),
   C4_clean_boundary.2.1 .Utf8 [0, 0, 0, 0] 2 (by decide) (by decide),
   C4_clean_boundary.2.2 .Unknown [0, 0, 0, 0]⟩

/-- C5: under `Utf16Be` or `Utf16Le`, the decoder buffers exactly two
bytes and decodes them as one big- or little-endian UTF-16 code unit,
returning it when it is not a surrogate.  When the first unit is a high
surrogate followed by a valid low surrogate, two more bytes are buffered
and the pair decodes to one supplementary codepoint.  A surrogate first
unit with an invalid or missing pair always produces an error
(`InvalidData` with four bytes available, `UnexpectedEof` when the stream
ends first), never a codepoint. -/
theorem C5_utf16_units :
    (∀ (b0 b1 : Nat) (rest : List Nat) (a0 a1 a2 a3 : Nat),
      isSurrogateUnit (be16 b0 b1) = false →
      read_char_from (b0 :: b1 :: rest) .Utf16Be [a0, a1, a2, a3] 0 =
        ⟨.ok (some (be16 b0 b1)), .Utf16Be, [b0, b1, a2, a3], 2, rest⟩) ∧
    (∀ (b0 b1 b2 b3 : Nat) (rest : List Nat) (a0 a1 a2 a3 : Nat),
      0xD800 ≤ be16 b0 b1 → be16 b0 b1 ≤ 0xDBFF →
      0xDC00 ≤ be16 b2 b3 → be16 b2 b3 ≤ 0xDFFF →
      read_char_from (b0 :: b1 :: b2 :: b3 :: rest) .Utf16Be [a0, a1, a2, a3] 0 =
        ⟨.ok (some (0x10000 + (be16 b0 b1 - 0xD800) * 0x400 + (be16 b2 b3 - 0xDC00))),
          .Utf16Be, [b0, b1, b2, b3], 4, rest⟩) ∧
    (∀ (b0 b1 b2 b3 : Nat) (rest : List Nat) (a0 a1 a2 a3 : Nat),
      isSurrogateUnit (be16 b0 b1) = true →
      ¬(be16 b0 b1 ≤ 0xDBFF ∧ 0xDC00 ≤ be16 b2 b3 ∧ be16 b2 b3 ≤ 0xDFFF) →
      (read_char_from (b0 :: b1 :: b2 :: b3 :: rest) .Utf16Be [a0, a1, a2, a3] 0).res =
        .error (.IoErr .InvalidData)) ∧
    (∀ (b0 b1 : Nat) (a0 a1 a2 a3 : Nat),
      isSurrogateUnit (be16 b0 b1) = true →
      (read_char_from [b0, b1] .Utf16Be [a0, a1, a2, a3] 0).res = .error .UnexpectedEof) ∧
    (∀ (b0 b1 : Nat) (rest : List Nat) (a0 a1 a2 a3 : Nat),
      isSurrogateUnit (le16 b0 b1) = false →
      read_char_from (b0 :: b1 :: rest) .Utf16Le [a0, a1, a2, a3] 0 =
        ⟨.ok (some (le16 b0 b1)), .Utf16Le, [b0, b1, a2, a3], 2, rest⟩) ∧
    (∀ (b0 b1 b2 b3 : Nat) (rest : List Nat) (a0 a1 a2 a3 : Nat),
      0xD800 ≤ le16 b0 b1 → le16 b0 b1 ≤ 0xDBFF →
      0xDC00 ≤ le16 b2 b3 → le16 b2 b3 ≤ 0xDFFF →
      read_char_from (b0 :: b1 :: b2 :: b3 :: rest) .Utf16Le [a0, a1, a2, a3] 0 =
        ⟨.ok (some (0x10000 + (le16 b0 b1 - 0xD800) * 0x400 + (le16 b2 b3 - 0xDC00))),
          .Utf16Le, [b0, b1, b2, b3], 4, rest⟩) ∧
    (∀ (b0 b1 b2 b3 : Nat) (rest : List Nat) (a0 a1 a2 a3 : Nat),
      isSurrogateUnit (le16 b0 b1) = true →
      ¬(le16 b0 b1 ≤ 0xDBFF ∧ 0xDC00 ≤ le16 b2 b3 ∧ le16 b2 b3 ≤ 0xDFFF) →
      (read_char_from (b0 :: b1 :: b2 :: b3 :: rest) .Utf16Le [a0, a1, a2, a3] 0).res =
        .error (.IoErr .InvalidData)) ∧
    (∀ (b0 b1 : Nat) (a0 a1 a2 a3 : Nat),
      isSurrogateUnit (le16 b0 b1) = true →
      (read_char_from [b0, b1] .Utf16Le [a0, a1, a2, a3] 0).res = .error .UnexpectedEof) := by
  refine ⟨?_, ?_, ?_, ?_, ?_, ?_, ?_, ?_⟩
  · intro b0 b1 rest a0 a1 a2 a3 hs
    rw [be_step0, be_step1, hs, if_neg (by simp)]
  · intro b0 b1 b2 b3 rest a0 a1 a2 a3 h1 h2 h3 h4
    rw [be_step0, be_step1]
    rw [if_pos (by simp [isSurrogateUnit]; omega), be_step2, be_step3]
    have hx : surrogate (be16 b0 b1) (be16 b2 b3) =
        .ok (some (0x10000 + (be16 b0 b1 - 0xD800) * 0x400 + (be16 b2 b3 - 0xDC00))) := by
      unfold surrogate
      rw [if_pos (by simp [isSurrogateUnit]; omega), if_pos (by omega)]
    rw [hx]
  · intro b0 b1 b2 b3 rest a0 a1 a2 a3 hs hpair
    rw [be_step0, be_step1, hs, if_pos rfl, be_step2, be_step3]
    have hx : surrogate (be16 b0 b1) (be16 b2 b3) = .error (.IoErr .InvalidData) := by
      unfold surrogate
      rw [if_pos hs, if_neg hpair]
    rw [hx]
  · intro b0 b1 a0 a1 a2 a3 hs
    have h2 : ([b0, b1] : List Nat) = b0 :: b1 :: [] := rfl
    rw [h2, be_step0, be_step1, hs, if_pos rfl, read_nil_mid _ _ _ (by omega) (by omega)]
  · intro b0 b1 rest a0 a1 a2 a3 hs
    rw [le_step0, le_step1, hs, if_neg (by simp)]
  · intro b0 b1 b2 b3 rest a0 a1 a2 a3 h1 h2 h3 h4
    rw [le_step0, le_step1]
    rw [if_pos (by simp [isSurrogateUnit]; omega), le_step2, le_step3]
    have hx : surrogate (le16 b0 b1) (le16 b2 b3) =
        .ok (some (0x10000 + (le16 b0 b1 - 0xD800) * 0x400 + (le16 b2 b3 - 0xDC00))) := by
      unfold surrogate
      rw [if_pos (by simp [isSurrogateUnit]; omega), if_pos (by omega)]
    rw [hx]
  · intro b0 b1 b2 b3 rest a0 a1 a2 a3 hs hpair
    rw [le_step0, le_step1, hs, if_pos rfl, le_step2, le_step3]
    have hx : surrogate (le16 b0 b1) (le16 b2 b3) = .error (.IoErr .InvalidData) := by
      unfold surrogate
      rw [if_pos hs, if_neg hpair]
    rw [hx]
  · intro b0 b1 a0 a1 a2 a3 hs
    have h2 : ([b0, b1] : List Nat) = b0 :: b1 :: [] := rfl
    rw [h2, le_step0, le_step1, hs, if_pos rfl, read_nil_mid _ _ _ (by omega) (by omega)]

/-- C5 witness: the big-endian unit `00 42` decodes to `B` from exactly
two bytes, and an unpaired high surrogate at end of stream errors. -/
theorem C5_utf16_units_witness :
    read_char_from [0x00, 0x42] .Utf16Be [0, 0, 0, 0] 0 =
      ⟨.ok (some (be16 0x00 0x42)), .Utf16Be, [0x00, 0x42, 0, 0], 2, []⟩ ∧
    (read_char_from [0xD8, 0x00] .Utf16Be [0, 0, 0, 0] 0).res = .error .UnexpectedEof :=
  ⟨C5_utf16_units.1 0x00 0x42 [] 0 0 0 0 (by decide),
   C5_utf16_units.2.2.2.1 0xD8 0x00 0 0 0 0 (by decide)⟩

/-- C6: under `Utf8` or `Default`: an ASCII byte with no pending bytes is
returned immediately, leaving the buffer and position untouched; a
multi-byte UTF-8 sequence is accumulated and its scalar returned once the
buffered prefix decodes; a proper prefix of a multi-byte sequence followed
by end of stream keeps reading until `UnexpectedEof`; and a byte that can
start no UTF-8 sequence (`80..C1` or `F5..`) is accumulated to four bytes
and reported as a UTF-8 decoding error. -/
theorem C6_utf8_paths :
    (∀ (e : Encoding), e = .Utf8 ∨ e = .Default → ∀ (b : Nat) (rest buf : List Nat),
      b < 0x80 →
      read_char_from (b :: rest) e buf 0 = ⟨.ok (some b), e, buf, 0, rest⟩) ∧
    (∀ (e : Encoding), e = .Utf8 ∨ e = .Default → ∀ (c : Nat), isScalar c = true →
      ∀ (rest buf : List Nat), buf.length = 4 →
      (read_char_from (utf8Encode c ++ rest) e buf 0).res = .ok (some c) ∧
      (read_char_from (utf8Encode c ++ rest) e buf 0).enc = e ∧
      (read_char_from (utf8Encode c ++ rest) e buf 0).rest = rest) ∧
    (∀ (e : Encoding), e = .Utf8 ∨ e = .Default → ∀ (c : Nat), isScalar c = true →
      0x80 ≤ c → ∀ (k : Nat), 0 < k → k < (utf8Encode c).length →
      ∀ (buf : List Nat), buf.length = 4 →
      (read_char_from ((utf8Encode c).take k) e buf 0).res = .error .UnexpectedEof) ∧
    (∀ (e : Encoding), e = .Utf8 ∨ e = .Default → ∀ (b b1 b2 b3 : Nat),
      (0x80 ≤ b ∧ b < 0xC2) ∨ 0xF4 < b → ∀ (rest buf : List Nat), buf.length = 4 →
      (read_char_from (b :: b1 :: b2 :: b3 :: rest) e buf 0).res = .error .Utf8) :=
  ⟨fun e he b rest buf hlt => by
      rw [read_utf8_cons e he _ _ _ _ (by omega), if_pos ⟨rfl, hlt⟩],
   fun e he c hc rest buf hb => read_one_utf8 e he c hc rest buf hb,
   fun e he c hc h8 k hk0 hk buf hb => utf8_incomplete_eof e he c hc h8 k hk0 hk buf hb,
   fun e he b b1 b2 b3 hbad rest buf hb => utf8_badlead_error e he b b1 b2 b3 hbad rest buf hb⟩

/-- C6 witness: the ASCII fast path returns `A` without touching the
buffer; the two-byte sequence for `é` decodes; its one-byte prefix ends in
`UnexpectedEof`; and a stray continuation byte yields a UTF-8 error. -/
theorem C6_utf8_paths_witness :
    read_char_from [0x41, 0x42] .Utf8 [9, 9, 9, 9] 0 =
      ⟨.ok (some 0x41), .Utf8, [9, 9, 9, 9], 0, [0x42]⟩ ∧
    (read_char_from (utf8Encode 0xE9 ++ [0x41]) .Utf8 [0, 0, 0, 0] 0).res = .ok (some 0xE9) ∧
    (read_char_from ((utf8Encode 0xE9).take 1) .Utf8 [0, 0, 0, 0] 0).res =
      .error .UnexpectedEof ∧
    (read_char_from [0x80, 0x41, 0x42, 0x43] .Utf8 [0, 0, 0, 0] 0).res = .error .Utf8 :=
  ⟨C6_utf8_paths.1 .Utf8 (Or.inl rfl) 0x41 [0x42] [9, 9, 9, 9] (by decide),
   (C6_utf8_paths.2.1 .Utf8 (Or.inl rfl) 0xE9 (by decide) [0x41] [0, 0, 0, 0] (by decide)).1,
   C6_utf8_paths.2.2.1 .Utf8 (Or.inl rfl) 0xE9 (by decide) (by decide) 1 (by decide)
     (by decide) [0, 0, 0, 0] (by decide),
   C6_utf8_paths.2.2.2 .Utf8 (Or.inl rfl) 0x80 0x41 0x42 0x43 (by decide) [] [0, 0, 0, 0]
     (by decide)⟩

/-- C7: under `Latin1` every byte is returned verbatim as the codepoint of
the same value with no error case; under `Ascii` a byte is returned as a
codepoint exactly when it is below 128, and any byte in `128..255` is
reported as an invalid-data error. -/
theorem C7_latin1_ascii :
    (∀ (b : Nat) (rest buf : List Nat) (pos : Nat), pos < 4 →
      read_char_from (b :: rest) .Latin1 buf pos = ⟨.ok (some b), .Latin1, buf, pos, rest⟩) ∧
    (∀ (b : Nat) (rest buf : List Nat) (pos : Nat), pos < 4 → b < 0x80 →
      read_char_from (b :: rest) .Ascii buf pos = ⟨.ok (some b), .Ascii, buf, pos, rest⟩) ∧
    (∀ (b : Nat) (rest buf : List Nat) (pos : Nat), pos < 4 → 0x80 ≤ b → b < 0x100 →
      read_char_from (b :: rest) .Ascii buf pos =
        ⟨.error (.IoErr .InvalidData), .Ascii, buf, pos, rest⟩) :=
  ⟨fun b rest buf pos h4 => read_latin1_cons b rest buf pos h4,
   fun b rest buf pos h4 hlt => by
     rw [read_ascii_cons b rest buf pos h4, if_pos hlt],
   fun b rest buf pos h4 hge _ => by
     rw [read_ascii_cons b rest buf pos h4, if_neg (by omega)]⟩

/-- C7 witness: byte `0xFF` is the codepoint 255 under `Latin1` and an
invalid-data error under `Ascii`; byte `0x41` is `A` under `Ascii`. -/
theorem C7_latin1_ascii_witness :
    read_char_from [0xFF] .Latin1 [0, 0, 0, 0] 0 =
      ⟨.ok (some 0xFF), .Latin1, [0, 0, 0, 0], 0, []⟩ ∧
    read_char_from [0x41] .Ascii [0, 0, 0, 0] 0 =
      ⟨.ok (some 0x41), .Ascii, [0, 0, 0, 0], 0, []⟩ ∧
    read_char_from [0xFF] .Ascii [0, 0, 0, 0] 0 =
      ⟨.error (.IoErr .InvalidData), .Ascii, [0, 0, 0, 0], 0, []⟩ :=
  ⟨C7_latin1_ascii.1 0xFF [] [0, 0, 0, 0] 0 (by decide),
   C7_latin1_ascii.2.1 0x41 [] [0, 0, 0, 0] 0 (by decide) (by decide),
   C7_latin1_ascii.2.2 0xFF [] [0, 0, 0, 0] 0 (by decide) (by decide) (by decide)⟩

/-- C8: evaluation of `Encoding::from_str` at inputs that are not
supported labels.  Because `icmp` zips the label with the input and stops
at the shorter of the two, any input agreeing with a label on the
overlapping bytes is accepted: `"u"`, the empty string, `"utf-16le"` and
`"latin1x"` are all accepted although they are not supported labels,
contradicting the claim that every non-label is rejected; `"x"` is
rejected as expected. -/
theorem C8_from_str_eval :
    Encoding.from_str (asciiBytes "u") = .ok .Utf8 ∧
    Encoding.from_str (asciiBytes "") = .ok .Utf8 ∧
    Encoding.from_str (asciiBytes "utf-16le") = .ok .Utf16 ∧
    Encoding.from_str (asciiBytes "latin1x") = .ok .Latin1 ∧
    Encoding.from_str (asciiBytes "x") = .error "unknown encoding name" :=
  ⟨rfl, rfl, rfl, rfl, rfl⟩

/-- C9: once a call of the decoder returns a codepoint, the encoding is
one of the six concrete variants, and a decoder started on any concrete
variant never changes it — in particular `Unknown` and bare `Utf16` never
reappear once left. -/
theorem C9_encoding_invariant :
    (∀ (src : List Nat) (e : Encoding) (buf : List Nat) (pos : Nat) (c : Nat),
      (read_char_from src e buf pos).res = .ok (some c) →
      (read_char_from src e buf pos).enc ∈
        [Encoding.Utf8, .Default, .Latin1, .Ascii, .Utf16Be, .Utf16Le]) ∧
    (∀ (src : List Nat) (e : Encoding) (buf : List Nat) (pos : Nat),
      e ≠ .Unknown → e ≠ .Utf16 → (read_char_from src e buf pos).enc = e) :=
  ⟨fun src e buf pos c h =>
    enc_mem_of_ne _ (read_enc_concrete src e buf pos c h).1 (read_enc_concrete src e buf pos c h).2,
   fun src e buf pos h1 h2 => read_enc_preserve src e buf pos h1 h2⟩

/-- C9 witness: decoding an ASCII byte from `Unknown` lands on the
concrete `Default` variant, and a decoder already on `Utf16Be` stays on
it. -/
theorem C9_encoding_invariant_witness :
    (read_char_from [0x41] .Unknown [0, 0, 0, 0] 0).enc ∈
      [Encoding.Utf8, .Default, .Latin1, .Ascii, .Utf16Be, .Utf16Le] ∧
    (read_char_from [0x00, 0x42] .Utf16Be [0, 0, 0, 0] 0).enc = .Utf16Be :=
  ⟨C9_encoding_invariant.1 [0x41] .Unknown [0, 0, 0, 0] 0 0x41 (by decide),
   C9_encoding_invariant.2 [0x00, 0x42] .Utf16Be [0, 0, 0, 0] 0 (by decide) (by decide)⟩

/-- C10: the synchronous `XmlRead::read_char` on `AsyncReader` always
returns an `Unsupported`-kind I/O error and leaves the reader — source,
stored encoding and pending-byte buffer — completely unchanged. -/
theorem C10_sync_read_unsupported :
    ∀ r : AsyncReader, r.read_char_sync = (.error (.IoErr .Unsupported), r) :=
  fun _ => rfl

/-! ### Validation against the unit tests of `src/util.rs` -/

example : (read_char_from (asciiBytes "correct") .Unknown [0, 0, 0, 0] 0).res =
    .ok (some 0x63) := by decide

example : (read_char_from [0xEF, 0xBB, 0xBF, 0xE2, 0x80, 0xA2, 0x21] .Unknown [0, 0, 0, 0] 0).res =
    .ok (some 0x2022) := by decide

example : (read_char_from [0xEF, 0xBB, 0xBF, 0x78, 0x31] .Unknown [0, 0, 0, 0] 0).res =
    .ok (some 0x78) := by decide

example : (read_char_from [0xEF, 0xBB, 0xBF] .Unknown [0, 0, 0, 0] 0).res = .ok none := by decide

example : (read_char_from [0xEF, 0xBB] .Unknown [0, 0, 0, 0] 0).res =
    .error .UnexpectedEof := by decide

example : (read_char_from [0xFE, 0xFF, 0x00, 0x42] .Unknown [0, 0, 0, 0] 0).res =
    .ok (some 0x42) := by decide

example : (read_char_from [0xFF, 0xFE, 0x42, 0x00] .Unknown [0, 0, 0, 0] 0).res =
    .ok (some 0x42) := by decide

example : (read_char_from [0xFF, 0xFE] .Unknown [0, 0, 0, 0] 0).res = .ok none := by decide

example : (read_char_from [0xFF, 0xFE, 0x00] .Unknown [0, 0, 0, 0] 0).res =
    .error .UnexpectedEof := by decide

example : (read_char_from [0xD0, 0xBF, 0xD1, 0x80] .Utf16Be [0, 0, 0, 0] 0).res =
    .ok (some 0xD0BF) := by decide

example : (read_char_from [0xD0, 0xBF, 0xD1, 0x80] .Utf16Le [0, 0, 0, 0] 0).res =
    .ok (some 0xBFD0) := by decide

example : (read_char_from [0x00, 0x42] .Utf16 [0, 0, 0, 0] 0).res = .ok (some 0x42) := by decide

example : (read_char_from [0x42, 0x00] .Utf16 [0, 0, 0, 0] 0).res = .ok (some 0x42) := by decide

example : (read_char_from [0xEF, 0xBB, 0xBF, 0xFF, 0xFF] .Utf16 [0, 0, 0, 0] 0).res =
    .error (.IoErr .InvalidData) := by decide

example : (read_char_from [0x00] .Utf16Be [0, 0, 0, 0] 0).res = .error .UnexpectedEof := by decide

example : (read_char_from [0xF0, 0x9F, 0x98, 0x8A] .Unknown [0, 0, 0, 0] 0).res =
    .ok (some 0x1F60A) := by decide

example : (read_char_from [] .Unknown [0, 0, 0, 0] 0).res = .ok none := by decide

example : (read_char_from [0xF0, 0x9F, 0x98] .Unknown [0, 0, 0, 0] 0).res =
    .error .UnexpectedEof := by decide

example : (read_char_from [0xFF, 0x9F, 0x98, 0x32] .Unknown [0, 0, 0, 0] 0).res =
    .error .Utf8 := by decide

example : Encoding.from_str (asciiBytes "UTF-8") = .ok .Utf8 := by decide

example : Encoding.from_str (asciiBytes "Us-AsCiI") = .ok .Ascii := by decide

example : decodeAll ((ExtEncoding.utf8).encodeSeq [0x41, 0x2022, 0x1F60A, 0x7F, 0x444])
    (ExtEncoding.utf8).startEnc = .ok [0x41, 0x2022, 0x1F60A, 0x7F, 0x444] := by decide
